import Mathlib

/-!
Verification of the Mooddit backend's core algorithms: interval sentiment
aggregation (backend/main.py, analyze_sentiment_endpoint), topic extraction
and clustering (backend/src/topic_extractor.py), velocity/trending scoring
(backend/src/trending_discovery.py) and the sentiment forecaster
(backend/src/sentiment_predictor.py).

Timestamps are modelled as rational numbers measured in hours (the Python
code works with datetimes and divides second differences by 3600; a pure
affine change of units).  All float arithmetic is idealised as exact
rational arithmetic; `round(x, n)` is modelled as rounding to the nearest
multiple of `10^(-n)` (Python rounds the nearest binary double, which
agrees except on exact half-way ties, which none of the concrete inputs
used below hit).
-/

namespace Mooddit

/-- Sentiment label as produced by `analyze_sentiment`
(backend/src/sentiment_analysis.py): both backends return one consistent
label alphabet per run, together with the value +1, -1 or 0; we use one
three-letter alphabet. -/
inductive Lab where
  | pos : Lab
  | neg : Lab
  | neu : Lab
deriving DecidableEq, Repr

/-! ## Interval aggregation of backend/main.py (analyze_sentiment_endpoint)

`time_bins = pd.date_range(start=time_cutoff, end=utcnow, freq=f"{h}H")`
produces the points `start, start+h, ..., start+k*h` with
`start+k*h <= end` and `k` maximal; consecutive pairs are the buckets. -/

/-- Model of `pd.date_range(start, end, freq=h)` for `h > 0`: all points
`start + i*h` with `i = 0, ..., floor((end-start)/h)`; empty when
`end < start`. -/
def timeBins (start stop h : ℚ) : List ℚ :=
  if stop < start then []
  else (List.range ((⌊(stop - start) / h⌋).toNat + 1)).map (fun i : ℕ => start + (i : ℚ) * h)

/-- Consecutive pairs of the bin edges: the half-open buckets
`[bins[i], bins[i+1])` iterated by `for i in range(len(time_bins) - 1)`. -/
def bucketsOf (start stop h : ℚ) : List (ℚ × ℚ) :=
  (timeBins start stop h).zip (timeBins start stop h).tail

/-- Model of `pandas.Series.value_counts().idxmax()` on a list of labels:
`value_counts` tabulates counts in first-appearance order and sorts by
count descending (a stable sort in practice), and `idxmax` picks the first
entry, i.e. the earliest-appearing label attaining the maximal count. -/
def valueCountsIdxmax (xs : List Lab) : Option Lab :=
  xs.find? (fun a => xs.all (fun b => xs.count b ≤ xs.count a))

/-- Dominant-sentiment computation of main.py lines 333-350 for one bucket:
empty bucket gives `None`; otherwise neutral labels are discarded (the
`isin(["positive", "negative", "label_2", "label_0"])` filter); if nothing
remains the value is `None`; otherwise `value_counts().idxmax()` decides,
mapped to +1 for positive and -1 for negative (the final `else 0` branch
of the Python code is kept verbatim even though it is unreachable). -/
def nonNeutralLabels (bucket : List Lab) : List Lab :=
  bucket.filter (fun l => decide (l ≠ Lab.neu))

def bucketSentimentVal (bucket : List Lab) : Option ℤ :=
  if bucket = [] then none
  else
    match valueCountsIdxmax (nonNeutralLabels bucket) with
    | none => none
    | some Lab.pos => some 1
    | some Lab.neg => some (-1)
    | some Lab.neu => some 0

/-- Model of `Series.fillna(method="ffill")` on an optional-valued column:
each `none` entry inherits the carried last seen value. -/
def ffillOpt : Option ℤ → List (Option ℤ) → List (Option ℤ)
  | _, [] => []
  | last, none :: r => last :: ffillOpt last r
  | _, some v :: r => some v :: ffillOpt (some v) r

/-- Model of the trailing `.fillna(0)`: remaining missing values become 0. -/
def fillna0 (xs : List (Option ℤ)) : List ℤ :=
  xs.map (fun o => o.getD 0)

/-- The forward-fill pass of main.py line 360:
`fillna(method="ffill").fillna(0)`. -/
def forwardFill (xs : List (Option ℤ)) : List ℤ :=
  fillna0 (ffillOpt none xs)

/-- Full time-series computation of main.py lines 320-365 on items given as
(timestamp, label) pairs: bucket the items into the bins over
`[start, stop]`, compute each bucket's dominant sentiment, forward fill. -/
def analyzeTimeSeries (items : List (ℚ × Lab)) (start stop h : ℚ) : List ℤ :=
  let bucketLabels := (bucketsOf start stop h).map
    (fun se => (items.filter (fun it => decide (se.1 ≤ it.1) && decide (it.1 < se.2))).map Prod.snd)
  forwardFill (bucketLabels.map bucketSentimentVal)

/-! ### Structure of the buckets (claim C1) -/

theorem range_getElem?_eq (n i : ℕ) :
    (List.range n)[i]? = if i < n then some i else none := by
  by_cases h : i < n
  · simp [List.getElem?_range, h]
  · simp only [if_neg h]
    exact List.getElem?_eq_none (by simpa using Nat.le_of_not_lt h)

theorem zip_tail_map_range {α : Type} (n : ℕ) (f : ℕ → α) :
    ((List.range (n + 1)).map f).zip (((List.range (n + 1)).map f).tail)
      = (List.range n).map (fun i => (f i, f (i + 1))) := by
  apply List.ext_getElem?
  intro i
  simp only [List.zip, List.getElem?_zipWith', List.getElem?_tail, List.getElem?_map,
    range_getElem?_eq]
  by_cases h : i < n
  · simp [h, Nat.lt_succ_of_lt h, Nat.succ_lt_succ h]
  · have h2 : ¬ i + 1 < n + 1 := by omega
    by_cases h3 : i < n + 1
    · simp [h, h2, h3]
    · simp [h, h2, h3]

theorem timeBins_eq (start stop h : ℚ) (hle : start ≤ stop) :
    timeBins start stop h
      = (List.range ((⌊(stop - start) / h⌋).toNat + 1)).map
          (fun i : ℕ => start + (i : ℚ) * h) := by
  unfold timeBins
  rw [if_neg (not_lt.mpr hle)]

theorem bucketsOf_eq (start stop h : ℚ) (hle : start ≤ stop) :
    bucketsOf start stop h
      = (List.range (⌊(stop - start) / h⌋).toNat).map
          (fun i : ℕ => (start + (i : ℚ) * h, start + ((i : ℚ) + 1) * h)) := by
  unfold bucketsOf
  rw [timeBins_eq start stop h hle, zip_tail_map_range]
  congr 1
  funext i
  push_cast
  ring_nf

/-- Claim C1 (corrected): over a caller-supplied window `[start, stop)` with
interval width `h`, the endpoint aggregator of main.py (lines 320-331)
produces `floor((stop-start)/h)` buckets, not `ceil((stop-start)/h)`:
the buckets are contiguous, non-overlapping, of fixed width `h`, ordered by
start time, and cover exactly `[start, start + n*h)` where
`n = floor((stop-start)/h)`; the tail `[start + n*h, stop)` of the window is
not covered.  When `h` exactly divides the window width the two counts agree
and the whole window is covered. -/
theorem bucketsOf_floor_count (start stop h : ℚ) (n : ℕ)
    (hh : 0 < h) (hle : start ≤ stop) (hn : (n : ℤ) = ⌊(stop - start) / h⌋) :
    (bucketsOf start stop h).length = n ∧
    bucketsOf start stop h
      = (List.range n).map (fun i : ℕ => (start + (i : ℚ) * h, start + ((i : ℚ) + 1) * h)) ∧
    (∀ b ∈ bucketsOf start stop h, start ≤ b.1 ∧ b.2 ≤ start + (n : ℚ) * h ∧ b.2 - b.1 = h) ∧
    start + (n : ℚ) * h ≤ stop ∧ stop - start < ((n : ℚ) + 1) * h ∧
    (∀ t : ℚ, start ≤ t → t < start + (n : ℚ) * h →
      ∃ b ∈ bucketsOf start stop h, b.1 ≤ t ∧ t < b.2) ∧
    (∀ k : ℕ, stop - start = (k : ℚ) * h →
      start + (n : ℚ) * h = stop ∧ (n : ℤ) = ⌈(stop - start) / h⌉) := by
  have hspan : (0 : ℚ) ≤ stop - start := by linarith
  have hq : (0 : ℚ) ≤ (stop - start) / h := div_nonneg hspan (le_of_lt hh)
  have hfl : (0 : ℤ) ≤ ⌊(stop - start) / h⌋ := Int.floor_nonneg.mpr hq
  have htn : (⌊(stop - start) / h⌋).toNat = n := by omega
  have hexp := bucketsOf_eq start stop h hle
  rw [htn] at hexp
  have hnle : (n : ℚ) ≤ (stop - start) / h := by
    have := Int.floor_le ((stop - start) / h)
    rw [← hn] at this
    exact_mod_cast this
  have hnlt : (stop - start) / h < (n : ℚ) + 1 := by
    have := Int.lt_floor_add_one ((stop - start) / h)
    rw [← hn] at this
    exact_mod_cast this
  have hmul_le : (n : ℚ) * h ≤ stop - start := by
    rw [le_div_iff hh] at hnle
    linarith
  have hmul_lt : stop - start < ((n : ℚ) + 1) * h := by
    rw [div_lt_iff hh] at hnlt
    linarith
  refine ⟨by rw [hexp]; simp, hexp, ?_, by linarith, hmul_lt, ?_, ?_⟩
  · intro b hb
    rw [hexp] at hb
    simp only [List.mem_map, List.mem_range] at hb
    obtain ⟨i, hi, rfl⟩ := hb
    dsimp only
    have hi' : (i : ℚ) + 1 ≤ (n : ℚ) := by exact_mod_cast hi
    constructor
    · have : (0 : ℚ) ≤ (i : ℚ) * h := mul_nonneg (by positivity) (le_of_lt hh)
      simpa using this
    constructor
    · have : ((i : ℚ) + 1) * h ≤ (n : ℚ) * h :=
        mul_le_mul_of_nonneg_right hi' (le_of_lt hh)
      linarith
    · ring
  · intro t ht1 ht2
    set u := (t - start) / h with hu
    have hu0 : (0 : ℚ) ≤ u := div_nonneg (by linarith) (le_of_lt hh)
    have hufl : (0 : ℤ) ≤ ⌊u⌋ := Int.floor_nonneg.mpr hu0
    set i : ℕ := (⌊u⌋).toNat with hi
    have hic : (i : ℚ) = (⌊u⌋ : ℚ) := by
      rw [hi]
      exact_mod_cast congrArg (fun z : ℤ => (z : ℚ)) (Int.toNat_of_nonneg hufl)
    have hiu : (i : ℚ) ≤ u := by rw [hic]; exact Int.floor_le u
    have hui : u < (i : ℚ) + 1 := by
      rw [hic]
      exact_mod_cast Int.lt_floor_add_one u
    have hun : u < (n : ℚ) := by
      rw [hu, div_lt_iff hh]
      linarith
    have hin : i < n := by
      have : (i : ℚ) < (n : ℚ) := lt_of_le_of_lt hiu hun
      exact_mod_cast this
    refine ⟨(start + (i : ℚ) * h, start + ((i : ℚ) + 1) * h), ?_, ?_, ?_⟩
    · rw [hexp]
      simp only [List.mem_map, List.mem_range]
      exact ⟨i, hin, rfl⟩
    · have : (i : ℚ) * h ≤ t - start := by
        rw [hu, le_div_iff hh] at hiu
        linarith
      simpa using by linarith
    · have : t - start < ((i : ℚ) + 1) * h := by
        rw [hu, div_lt_iff hh] at hui
        linarith
      simpa using by linarith
  · intro k hk
    have hdiv : (stop - start) / h = (k : ℚ) := by
      rw [hk]
      field_simp
    have hkn : (n : ℤ) = (k : ℤ) := by
      rw [hn, hdiv]
      simp
    have hnk : (n : ℚ) = (k : ℚ) := by exact_mod_cast hkn
    constructor
    · rw [hnk]; linarith [hk]
    · rw [hdiv, hn, hdiv]
      simp

/-- Claim C1, counterexample: for the window `[0, 5)` with interval `h = 2`
(reachable through the API as `time_window_hours = 5`, `interval_hours = 2`)
the endpoint produces 2 buckets while `ceil(5/2) = 3`, and the window point
`t = 9/2` is covered by no bucket, so the buckets do not cover `[0, 5)`. -/
theorem bucketsOf_window5_interval2_not_ceil :
    bucketsOf 0 5 2 = [(0, 2), (2, 4)] ∧
    (bucketsOf 0 5 2).length = 2 ∧ ⌈((5 : ℚ) - 0) / 2⌉ = 3 ∧
    ¬ ((0 : ℚ) ≤ 9/2 ∧ (9/2 : ℚ) < 2) ∧ ¬ ((2 : ℚ) ≤ 9/2 ∧ (9/2 : ℚ) < 4) ∧
    ((0 : ℚ) ≤ 9/2 ∧ (9/2 : ℚ) < 5) := by
  have hb : bucketsOf 0 5 2 = [(0, 2), (2, 4)] := by
    have h5 : ⌊((5 : ℚ) - 0) / 2⌋ = 2 := by norm_num
    rw [bucketsOf_eq 0 5 2 (by norm_num), h5]
    simp [List.range_succ]
    norm_num
  refine ⟨hb, by rw [hb]; rfl, ?_, by norm_num, by norm_num, by norm_num⟩
  rw [Int.ceil_eq_iff] <;> norm_num

/-- Claim C1, witness for `bucketsOf_floor_count` at the window `[0, 6)`
with `h = 2`. -/
theorem bucketsOf_floor_count_witness :
    (0 : ℚ) < 2 ∧ (0 : ℚ) ≤ 6 ∧ ((3 : ℕ) : ℤ) = ⌊((6 : ℚ) - 0) / 2⌋ ∧
    (bucketsOf 0 6 2).length = 3 := by
  refine ⟨by norm_num, by norm_num, by norm_num, ?_⟩
  exact (bucketsOf_floor_count 0 6 2 3 (by norm_num) (by norm_num) (by norm_num)).1

/-! ### Dominant sentiment (claim C2) -/

theorem find?_eq_some_of_iff {α : Type} (l : List α) (p : α → Bool) (a : α)
    (ha : a ∈ l) (h : ∀ x ∈ l, (p x = true ↔ x = a)) : l.find? p = some a := by
  induction l with
  | nil => cases ha
  | cons x xs ih =>
    by_cases hx : p x = true
    · rw [List.find?_cons_of_pos _ hx]
      have := (h x (List.mem_cons_self x xs)).mp hx
      rw [this]
    · rw [List.find?_cons_of_neg _ (by simpa using hx)]
      have hxa : x ≠ a := fun he => hx (((h x (List.mem_cons_self x xs)).mpr he))
      have ha' : a ∈ xs := by
        rcases List.mem_cons.mp ha with h1 | h1
        · exact absurd h1.symm hxa
        · exact h1
      exact ih ha' (fun y hy => h y (List.mem_cons_of_mem x hy))

theorem mem_nonNeutral {bucket : List Lab} {x : Lab} (hx : x ∈ nonNeutralLabels bucket) :
    x = Lab.pos ∨ x = Lab.neg := by
  have := List.of_mem_filter hx
  cases x
  · exact Or.inl rfl
  · exact Or.inr rfl
  · simp at this

theorem idxmax_of_pos_majority {fs : List Lab}
    (hmem : ∀ x ∈ fs, x = Lab.pos ∨ x = Lab.neg)
    (hgt : fs.count Lab.neg < fs.count Lab.pos) :
    valueCountsIdxmax fs = some Lab.pos := by
  apply find?_eq_some_of_iff
  · exact List.count_pos_iff_mem.mp (lt_of_le_of_lt (Nat.zero_le _) hgt)
  · intro x hx
    rcases hmem x hx with rfl | rfl
    · simp only [iff_true]
      rw [List.all_eq_true]
      intro b hb
      rcases hmem b hb with rfl | rfl
      · simp
      · simpa using Nat.le_of_lt hgt
    · constructor
      · intro hall
        rw [List.all_eq_true] at hall
        have := hall Lab.pos (List.count_pos_iff_mem.mp (lt_of_le_of_lt (Nat.zero_le _) hgt))
        simp at this
        omega
      · intro he
        cases he

theorem idxmax_of_neg_majority {fs : List Lab}
    (hmem : ∀ x ∈ fs, x = Lab.pos ∨ x = Lab.neg)
    (hgt : fs.count Lab.pos < fs.count Lab.neg) :
    valueCountsIdxmax fs = some Lab.neg := by
  apply find?_eq_some_of_iff
  · exact List.count_pos_iff_mem.mp (lt_of_le_of_lt (Nat.zero_le _) hgt)
  · intro x hx
    rcases hmem x hx with rfl | rfl
    · constructor
      · intro hall
        rw [List.all_eq_true] at hall
        have := hall Lab.neg (List.count_pos_iff_mem.mp (lt_of_le_of_lt (Nat.zero_le _) hgt))
        simp at this
        omega
      · intro he
        cases he
    · simp only [iff_true]
      rw [List.all_eq_true]
      intro b hb
      rcases hmem b hb with rfl | rfl
      · simpa using Nat.le_of_lt hgt
      · simp

theorem idxmax_of_tie {x : Lab} {xs : List Lab}
    (hmem : ∀ y ∈ x :: xs, y = Lab.pos ∨ y = Lab.neg)
    (heq : (x :: xs).count Lab.pos = (x :: xs).count Lab.neg) :
    valueCountsIdxmax (x :: xs) = some x := by
  unfold valueCountsIdxmax
  apply List.find?_cons_of_pos
  rw [List.all_eq_true]
  intro b hb
  simp only [decide_eq_true_eq]
  rcases hmem b hb with rfl | rfl <;>
    rcases hmem x (List.mem_cons_self x xs) with rfl | rfl <;>
      simp_all [List.count_cons] <;> omega

theorem nonNeutral_ne_nil_iff (bucket : List Lab) :
    nonNeutralLabels bucket ≠ [] → bucket ≠ [] := by
  intro h hb
  subst hb
  exact h rfl

/-- Claim C2 (corrected): neutral items are discarded and an all-neutral or
empty bucket yields `null`; a strict majority of positive (resp. negative)
non-neutral items yields `+1` (resp. `-1`); but on an exact tie the result
is the sign of the first non-neutral label encountered in the bucket (the
insertion order of `value_counts`), not deterministically `+1`. -/
theorem bucketSentimentVal_majority (bucket : List Lab) :
    (bucketSentimentVal bucket = none ↔ nonNeutralLabels bucket = []) ∧
    ((nonNeutralLabels bucket).count Lab.neg < (nonNeutralLabels bucket).count Lab.pos →
      bucketSentimentVal bucket = some 1) ∧
    ((nonNeutralLabels bucket).count Lab.pos < (nonNeutralLabels bucket).count Lab.neg →
      bucketSentimentVal bucket = some (-1)) ∧
    (∀ a : Lab,
      (nonNeutralLabels bucket).count Lab.pos = (nonNeutralLabels bucket).count Lab.neg →
      (nonNeutralLabels bucket).head? = some a →
      bucketSentimentVal bucket = some (if a = Lab.pos then 1 else -1)) := by
  have hmem : ∀ x ∈ nonNeutralLabels bucket, x = Lab.pos ∨ x = Lab.neg :=
    fun x hx => mem_nonNeutral hx
  refine ⟨?_, ?_, ?_, ?_⟩
  · constructor
    · intro hnone
      by_contra hne
      obtain ⟨x, xs, hx⟩ := List.exists_cons_of_ne_nil hne
      have hb : bucket ≠ [] := nonNeutral_ne_nil_iff bucket hne
      rcases Nat.lt_trichotomy ((nonNeutralLabels bucket).count Lab.pos)
        ((nonNeutralLabels bucket).count Lab.neg) with hlt | heq | hgt
      · have := idxmax_of_neg_majority hmem hlt
        rw [bucketSentimentVal, if_neg hb, this] at hnone
        cases hnone
      · have : valueCountsIdxmax (nonNeutralLabels bucket) = some x := by
          rw [hx] at heq ⊢
          exact idxmax_of_tie (hx ▸ hmem) heq
        rw [bucketSentimentVal, if_neg hb, this] at hnone
        rcases hmem x (by rw [hx]; exact List.mem_cons_self x xs) with rfl | rfl <;>
          cases hnone
      · have := idxmax_of_pos_majority hmem hgt
        rw [bucketSentimentVal, if_neg hb, this] at hnone
        cases hnone
    · intro hnil
      by_cases hb : bucket = []
      · rw [bucketSentimentVal, if_pos hb]
      · rw [bucketSentimentVal, if_neg hb]
        have : valueCountsIdxmax (nonNeutralLabels bucket) = none := by
          rw [hnil]
          rfl
        rw [this]
  · intro hgt
    have hb : bucket ≠ [] := by
      apply nonNeutral_ne_nil_iff
      intro hnil
      rw [hnil] at hgt
      simp at hgt
    rw [bucketSentimentVal, if_neg hb, idxmax_of_pos_majority hmem hgt]
  · intro hlt
    have hb : bucket ≠ [] := by
      apply nonNeutral_ne_nil_iff
      intro hnil
      rw [hnil] at hlt
      simp at hlt
    rw [bucketSentimentVal, if_neg hb, idxmax_of_neg_majority hmem hlt]
  · intro a heq hhead
    obtain ⟨x, xs, hx⟩ : ∃ y ys, nonNeutralLabels bucket = y :: ys := by
      cases hfs : nonNeutralLabels bucket with
      | nil => rw [hfs] at hhead; cases hhead
      | cons y ys => exact ⟨y, ys, rfl⟩
    have hax : a = x := by
      rw [hx] at hhead
      simpa using hhead.symm
    have hb : bucket ≠ [] :=
      nonNeutral_ne_nil_iff bucket (by rw [hx]; exact List.cons_ne_nil x xs)
    have hidx : valueCountsIdxmax (nonNeutralLabels bucket) = some a := by
      rw [hax, hx]
      rw [hx] at heq
      exact idxmax_of_tie (hx ▸ hmem) heq
    rw [bucketSentimentVal, if_neg hb, hidx]
    have hmem_a : a = Lab.pos ∨ a = Lab.neg := by
      rw [hax]
      exact hmem x (by rw [hx]; exact List.mem_cons_self x xs)
    rcases hmem_a with rfl | rfl
    · rfl
    · rfl

/-- Claim C2, counterexample: in the bucket `[negative, positive]` the two
non-neutral counts tie at 1-1, yet the dominant sentiment computed by the
endpoint is `-1` (the first-encountered label), not the claimed `+1`. -/
theorem bucketSentimentVal_tie_not_pos :
    bucketSentimentVal [Lab.neg, Lab.pos] = some (-1) ∧
    (nonNeutralLabels [Lab.neg, Lab.pos]).count Lab.pos
      = (nonNeutralLabels [Lab.neg, Lab.pos]).count Lab.neg ∧
    some (-1 : ℤ) ≠ some (1 : ℤ) := by
  refine ⟨by decide, by decide, by decide⟩

/-- Claim C2, witness for `bucketSentimentVal_majority`: the bucket
`[pos, neg, neg]` of the spec's Scenario 2 resolves to `-1`. -/
theorem bucketSentimentVal_majority_witness :
    bucketSentimentVal [Lab.pos, Lab.neg, Lab.neg] = some (-1) :=
  (bucketSentimentVal_majority [Lab.pos, Lab.neg, Lab.neg]).2.2.1 (by decide)

/-! ### Forward fill (claim C3) -/

theorem findSomeId_append (l1 l2 : List (Option ℤ)) :
    (l1 ++ l2).findSome? id = ((l1.findSome? id).or (l2.findSome? id)) := by
  induction l1 with
  | nil => simp
  | cons x xs ih => cases x <;> simp [List.findSome?_cons, ih, Option.or]

theorem ffillOpt_length (last : Option ℤ) (xs : List (Option ℤ)) :
    (ffillOpt last xs).length = xs.length := by
  induction xs generalizing last with
  | nil => rfl
  | cons x xs ih => cases x <;> simp [ffillOpt, ih]

theorem ffill_get? (last : Option ℤ) (xs : List (Option ℤ)) (i : ℕ) (hi : i < xs.length) :
    (fillna0 (ffillOpt last xs)).get? i
      = some (((((xs.take (i + 1)).reverse).findSome? id).or last).getD 0) := by
  induction xs generalizing last i with
  | nil => simp at hi
  | cons x xs ih =>
    cases x with
    | none =>
      cases i with
      | zero => simp [ffillOpt, fillna0, List.findSome?]
      | succ j =>
        have hj : j < xs.length := by simpa using hi
        have hl := ih last j hj
        calc (fillna0 (ffillOpt last (none :: xs))).get? (j + 1)
            = (fillna0 (ffillOpt last xs)).get? j := by
              simp [ffillOpt, fillna0]
          _ = some (((((xs.take (j + 1)).reverse).findSome? id).or last).getD 0) := hl
          _ = _ := by
              rw [List.take_succ_cons, List.reverse_cons, findSomeId_append]
              simp [Option.or_assoc]
    | some v =>
      cases i with
      | zero => simp [ffillOpt, fillna0, List.findSome?]
      | succ j =>
        have hj : j < xs.length := by simpa using hi
        have hl := ih (some v) j hj
        calc (fillna0 (ffillOpt (some v) (some v :: xs))).get? (j + 1)
            = (fillna0 (ffillOpt (some v) xs)).get? j := by
              simp [ffillOpt, fillna0]
          _ = some (((((xs.take (j + 1)).reverse).findSome? id).or (some v)).getD 0) := hl
          _ = _ := by
              rw [List.take_succ_cons, List.reverse_cons, findSomeId_append]
              simp [Option.or_assoc]

theorem bucketSentimentVal_values (bucket : List Lab) :
    bucketSentimentVal bucket = none ∨ bucketSentimentVal bucket = some 1 ∨
      bucketSentimentVal bucket = some (-1) := by
  by_cases hb : bucket = []
  · left
    rw [bucketSentimentVal, if_pos hb]
  · rw [bucketSentimentVal, if_neg hb]
    cases hfind : valueCountsIdxmax (nonNeutralLabels bucket) with
    | none => left; rfl
    | some a =>
      have ha : a ∈ nonNeutralLabels bucket := List.mem_of_find?_eq_some hfind
      rcases mem_nonNeutral ha with rfl | rfl
      · right; left; rfl
      · right; right; rfl

theorem ffillOpt_values (P : Option ℤ → Prop) (last : Option ℤ) (xs : List (Option ℤ))
    (hlast : P last) (hxs : ∀ o ∈ xs, P o) :
    ∀ o ∈ ffillOpt last xs, P o := by
  induction xs generalizing last with
  | nil => intro o ho; cases ho
  | cons x xs ih =>
    cases x with
    | none =>
      intro o ho
      rcases List.mem_cons.mp ho with rfl | ho'
      · exact hlast
      · exact ih last hlast (fun o' ho'' => hxs o' (List.mem_cons_of_mem _ ho'')) o ho'
    | some v =>
      intro o ho
      rcases List.mem_cons.mp ho with rfl | ho'
      · exact hxs (some v) (List.mem_cons_self _ _)
      · exact ih (some v) (hxs (some v) (List.mem_cons_self _ _))
          (fun o' ho'' => hxs o' (List.mem_cons_of_mem _ ho'')) o ho'

/-- Claim C3 (confirmed): after the forward-fill pass, a bucket whose
dominant sentiment was non-null keeps its value, a bucket whose dominant
sentiment was null holds the value of the nearest preceding non-null bucket
(`findSome? id` on the reversed prefix) with leading nulls resolving to 0,
and every final value lies in `{-1, 0, 1}`. -/
theorem forwardFill_nearest_preceding (bs : List (List Lab)) :
    (forwardFill (bs.map bucketSentimentVal)).length = bs.length ∧
    (∀ i, i < bs.length →
      (∀ v : ℤ, (bs.map bucketSentimentVal).get? i = some (some v) →
        (forwardFill (bs.map bucketSentimentVal)).get? i = some v) ∧
      ((bs.map bucketSentimentVal).get? i = some none →
        (forwardFill (bs.map bucketSentimentVal)).get? i
          = some (((((bs.map bucketSentimentVal).take i).reverse).findSome? id).getD 0))) ∧
    (∀ y ∈ forwardFill (bs.map bucketSentimentVal), y = -1 ∨ y = 0 ∨ y = 1) := by
  set xs := bs.map bucketSentimentVal with hxs
  have hlen : xs.length = bs.length := by rw [hxs]; simp
  refine ⟨?_, ?_, ?_⟩
  · unfold forwardFill fillna0
    rw [List.length_map, ffillOpt_length, hlen]
  · intro i hi
    have hi' : i < xs.length := by rw [hlen]; exact hi
    have hkey := ffill_get? none xs i hi'
    have htake : xs.take (i + 1) = xs.take i ++ (xs[i]?).toList := List.take_succ
    constructor
    · intro v hv
      rw [List.get?_eq_getElem?] at hv
      unfold forwardFill
      rw [hkey, htake, hv]
      simp [List.reverse_append, List.findSome?_cons]
    · intro hv
      rw [List.get?_eq_getElem?] at hv
      unfold forwardFill
      rw [hkey, htake, hv]
      simp [List.reverse_append, List.findSome?_cons, Option.or_none]
  · intro y hy
    unfold forwardFill fillna0 at hy
    rw [List.mem_map] at hy
    obtain ⟨o, ho, rfl⟩ := hy
    have hP : ∀ o' ∈ ffillOpt none xs,
        (o' = none ∨ o' = some 1 ∨ o' = some (-1)) := by
      apply ffillOpt_values
      · exact Or.inl rfl
      · intro o' ho'
        rw [hxs, List.mem_map] at ho'
        obtain ⟨b, _, rfl⟩ := ho'
        exact bucketSentimentVal_values b
    rcases hP o ho with rfl | rfl | rfl
    · right; left; rfl
    · right; right; rfl
    · left; rfl

/-- Claim C3, witness for `forwardFill_nearest_preceding` on the bucket
sequence `[[pos], [], [neu], [neg]]`: the empty second bucket (dominant
null) inherits the preceding value. -/
theorem forwardFill_nearest_preceding_witness :
    (forwardFill ([[Lab.pos], [], [Lab.neu], [Lab.neg]].map bucketSentimentVal)).get? 1
      = some ((((([[Lab.pos], [], [Lab.neu], [Lab.neg]].map bucketSentimentVal).take 1).reverse).findSome? id).getD 0) :=
  ((forwardFill_nearest_preceding [[Lab.pos], [], [Lab.neu], [Lab.neg]]).2.1 1
    (by decide)).2 (by decide)

/-! ## Topic extraction and clustering (backend/src/topic_extractor.py)

A `Post` is one row of the posts dataframe as consumed by
`extract_topics_from_posts`: `keywords` is the list returned by
`extract_keywords_from_text(title)` for that row's title (the regex scan
over the title, kept as input data here; note that the overlapping patterns
routinely emit the same keyword several times for one title, e.g. the title
"Tesla" matches both the title-case pattern and the capitalized-word pass,
yielding `["Tesla", "Tesla"]`), together with the engagement columns used
for scoring.  The `subreddit` and `variants` bookkeeping fields, which no
verified property mentions, are omitted from the records. -/

structure Post where
  keywords : List String
  score : ℤ
  num_comments : ℤ
  velocity : ℚ
deriving DecidableEq, Repr

/-- One candidate/merged topic record (the dict built at
topic_extractor.py lines 136-145 and 241-251, minus the subreddit and
variant bookkeeping). -/
structure TopicRec where
  topic : String
  post_count : ℕ
  total_score : ℤ
  total_comments : ℤ
  avg_velocity : ℚ
  topic_score : ℚ
deriving DecidableEq, Repr

/-- Model of Python `round(x, n)`: round to the nearest multiple of
`10^(-n)` (ties away from the half point follow `round = floor(x + 1/2)`;
no concrete input below sits on a tie). -/
def roundQ (n : ℕ) (x : ℚ) : ℚ :=
  ((round (x * 10 ^ n) : ℤ) : ℚ) / 10 ^ n

/-- Model of `are_topics_similar` (topic_extractor.py lines 199-223):
case-insensitive substring containment either way, or matching first two
whitespace-separated words. -/
def splitWords (l : List Char) : List (List Char) :=
  (l.splitOnP (fun c => decide (c = ' '))).filter (fun w => decide (w ≠ []))

def lowerData (s : String) : List Char :=
  s.data.map Char.toLower

def are_topics_similar (t1 t2 : String) : Bool :=
  let a := lowerData t1
  let b := lowerData t2
  if decide (a <:+: b) || decide (b <:+: a) then true
  else
    let w1 := splitWords a
    let w2 := splitWords b
    if 2 ≤ w1.length ∧ 2 ≤ w2.length then
      decide (w1.get? 0 = w2.get? 0) && decide (w1.get? 1 = w2.get? 1)
    else false

/-- Python `max(names, key=len)`: the first name of maximal length. -/
def maxByLen (names : List String) : String :=
  match names with
  | [] => ""
  | x :: xs => xs.foldl (fun best nm => if best.length < nm.length then nm else best) x

/-- Model of `merge_topics` (topic_extractor.py lines 226-253): longest name
wins, counts and scores sum, `avg_velocity` is averaged over the merged
group. -/
def merge_topics (ts : List TopicRec) : TopicRec :=
  { topic := maxByLen (ts.map (fun t => t.topic))
    post_count := (ts.map (fun t => t.post_count)).sum
    total_score := (ts.map (fun t => t.total_score)).sum
    total_comments := (ts.map (fun t => t.total_comments)).sum
    avg_velocity := (ts.map (fun t => t.avg_velocity)).sum / (ts.length : ℚ)
    topic_score := (ts.map (fun t => t.topic_score)).sum }

/-- The inner loop of `group_similar_topics` (lines 177-185): scan the whole
topic list, skipping names already consumed, collecting topics similar to
the seed name and consuming their names as they are found. -/
def innerScan (tname : String) (all : List TopicRec) (used : List String) :
    List TopicRec × List String :=
  all.foldl
    (fun acc o =>
      if o.topic ∈ acc.2 then acc
      else if tname ≠ o.topic ∧ are_topics_similar tname o.topic then
        (acc.1 ++ [o], acc.2 ++ [o.topic])
      else acc)
    ([], used)

/-- The outer loop of `group_similar_topics` (lines 166-196). -/
def groupSimilarAux (all : List TopicRec) : List TopicRec → List String → List TopicRec
  | [], _ => []
  | t :: rest, used =>
    if t.topic ∈ used then groupSimilarAux all rest used
    else
      let p := innerScan t.topic all used
      (if p.1.isEmpty then t else merge_topics (t :: p.1))
        :: groupSimilarAux all rest (p.2 ++ [t.topic])

def group_similar_topics (topics : List TopicRec) : List TopicRec :=
  groupSimilarAux topics topics []

/-- Stable descending insertion by `topic_score`: the model of Python's
stable `list.sort(key=lambda x: x["topic_score"], reverse=True)`
(topic_extractor.py line 148). -/
def insertScoreDesc (t : TopicRec) : List TopicRec → List TopicRec
  | [] => [t]
  | x :: r => if x.topic_score ≤ t.topic_score then t :: x :: r else x :: insertScoreDesc t r

def sortByScoreDesc (ts : List TopicRec) : List TopicRec :=
  ts.foldr insertScoreDesc []

/-- First-appearance key order of `collections.Counter` over the keyword
mention list: keep the first occurrence of each keyword. -/
def dedupFirstAux (seen : List String) : List String → List String
  | [] => []
  | x :: r => if x ∈ seen then dedupFirstAux seen r else x :: dedupFirstAux (seen ++ [x]) r

def dedupFirst (l : List String) : List String :=
  dedupFirstAux [] l

def allKeywords (posts : List Post) : List String :=
  posts.bind (fun p => p.keywords)

/-- Stable descending insertion by mention count (for
`Counter.most_common`, which sorts the counter items - kept in
first-appearance order - stably by count, descending). -/
def insertCountDesc (cnt : String → ℕ) (k : String) : List String → List String
  | [] => [k]
  | x :: r => if cnt x ≤ cnt k then k :: x :: r else x :: insertCountDesc cnt k r

def mostCommon (posts : List Post) (m : ℕ) : List String :=
  ((dedupFirst (allKeywords posts)).foldr
    (insertCountDesc (fun k => (allKeywords posts).count k)) []).take m

/-- The rows `posts_df.iloc[post_indices]` for one keyword: each post
repeated once per occurrence of the keyword in its extraction list
(`keyword_posts[kw]` appends the row index once per mention,
topic_extractor.py lines 101-107 and 117-118). -/
def mentionsOf (posts : List Post) (k : String) : List Post :=
  posts.bind (fun p => (p.keywords.filter (fun y => decide (y = k))).map (fun _ => p))

/-- The scored candidate record for one keyword (topic_extractor.py lines
115-145). -/
def mkTopic (posts : List Post) (k : String) : TopicRec :=
  let rel := mentionsOf posts k
  let cnt := (allKeywords posts).count k
  let ts := (rel.map (fun p => p.score)).sum
  let tc := (rel.map (fun p => p.num_comments)).sum
  let av := (rel.map (fun p => p.velocity)).sum / (rel.length : ℚ)
  { topic := k
    post_count := cnt
    total_score := ts
    total_comments := tc
    avg_velocity := roundQ 2 av
    topic_score := roundQ 2 ((cnt : ℚ) * 100 + (ts : ℚ) * (1/2) + (tc : ℚ) * 2 + av * 10) }

/-- Model of `extract_topics_from_posts` (lines 83-153): score the
`top_n * 3` most common keywords, sort descending by score, group similar
topics, return the first `top_n` groups. -/
def extract_topics_from_posts (posts : List Post) (top_n : ℕ) : List TopicRec :=
  if posts.isEmpty then []
  else
    (group_similar_topics
      (sortByScoreDesc ((mostCommon posts (top_n * 3)).map (mkTopic posts)))).take top_n

/-- A ranked topic as returned by `extract_top_trending_topics`
(lines 272-285): the record plus the `rank` and `trending_strength` keys
added by the ranking loop. -/
structure RankedTopic where
  base : TopicRec
  rank : ℕ
  trending_strength : ℚ
deriving DecidableEq, Repr

/-- The ranking loop of `extract_top_trending_topics` (lines 277-285):
ranks `1..N` in list order; `trending_strength` is relative to the score of
the FIRST topic of the filtered list (`filtered_topics[0]`). -/
def rankTopics (filtered : List TopicRec) (top_n : ℕ) : List RankedTopic :=
  match filtered with
  | [] => []
  | m :: _ =>
    ((filtered.take top_n).enum).map
      (fun p => ⟨p.2, p.1 + 1, roundQ 1 (p.2.topic_score / m.topic_score * 100)⟩)

/-- The filtered topic list of `extract_top_trending_topics` line 275:
merged topics with at least `min_posts` posts. -/
def filteredTopics (posts : List Post) (top_n min_posts : ℕ) : List TopicRec :=
  (extract_topics_from_posts posts (top_n * 2)).filter
    (fun t => decide (min_posts ≤ t.post_count))

def extract_top_trending_topics (posts : List Post) (top_n min_posts : ℕ) : List RankedTopic :=
  rankTopics (filteredTopics posts top_n min_posts) top_n

/-! ### Merge conservation and transitivity (claim C4) -/

/-- The per-seed similarity test of the inner scan, as a Bool predicate. -/
def simPred (tname : String) (used : List String) (o : TopicRec) : Bool :=
  decide (o.topic ∉ used ∧ tname ≠ o.topic ∧ are_topics_similar tname o.topic = true)

theorem innerScanGo_eq (tname : String) (used₀ : List String) :
    ∀ (rest : List TopicRec) (s : List TopicRec),
      (rest.map (fun t => t.topic)).Nodup →
      (∀ o ∈ rest, o.topic ∉ s.map (fun t => t.topic)) →
      rest.foldl
        (fun acc o =>
          if o.topic ∈ acc.2 then acc
          else if tname ≠ o.topic ∧ are_topics_similar tname o.topic then
            (acc.1 ++ [o], acc.2 ++ [o.topic])
          else acc)
        (s, used₀ ++ s.map (fun t => t.topic))
      = (s ++ rest.filter (simPred tname used₀),
         used₀ ++ (s ++ rest.filter (simPred tname used₀)).map (fun t => t.topic)) := by
  intro rest
  induction rest with
  | nil => intro s _ _; simp
  | cons o rest ih =>
    intro s hnd hdisj
    have hnd' : (rest.map (fun t => t.topic)).Nodup := (List.nodup_cons.mp hnd).2
    have honotin : o.topic ∉ rest.map (fun t => t.topic) := (List.nodup_cons.mp hnd).1
    rw [List.foldl_cons]
    by_cases hmem : o.topic ∈ used₀ ++ s.map (fun t => t.topic)
    · have hused : o.topic ∈ used₀ := by
        rcases List.mem_append.mp hmem with h | h
        · exact h
        · exact absurd h (hdisj o (List.mem_cons_self o rest))
      rw [if_pos hmem]
      have hp : simPred tname used₀ o = false := by
        simp only [simPred, decide_eq_false_iff_not]
        intro hc
        exact hc.1 hused
      rw [List.filter_cons_of_neg (by rw [hp]; exact Bool.false_ne_true)]
      exact ih s hnd' (fun o' ho' => hdisj o' (List.mem_cons_of_mem o ho'))
    · rw [if_neg hmem]
      have hnotused : o.topic ∉ used₀ := fun h => hmem (List.mem_append_left _ h)
      by_cases hcond : tname ≠ o.topic ∧ are_topics_similar tname o.topic = true
      · rw [if_pos hcond]
        have hp : simPred tname used₀ o = true := by
          simp only [simPred, decide_eq_true_eq]
          exact ⟨hnotused, hcond⟩
        rw [List.filter_cons_of_pos hp]
        have hstep := ih (s ++ [o]) hnd' (fun o' ho' => by
          simp only [List.map_append, List.mem_append, List.map_cons, List.map_nil,
            List.mem_singleton]
          rintro (h | h)
          · exact hdisj o' (List.mem_cons_of_mem o ho') h
          · exact honotin (h ▸ List.mem_map_of_mem (fun t => t.topic) ho'))
        dsimp only
        have hassoc : used₀ ++ List.map (fun t => t.topic) s ++ [o.topic]
            = used₀ ++ (s ++ [o]).map (fun t => t.topic) := by simp
        rw [hassoc, hstep]
        simp
      · rw [if_neg hcond]
        have hp : simPred tname used₀ o = false := by
          simp only [simPred, decide_eq_false_iff_not]
          intro hc
          exact hcond hc.2
        rw [List.filter_cons_of_neg (by rw [hp]; exact Bool.false_ne_true)]
        exact ih s hnd' (fun o' ho' => hdisj o' (List.mem_cons_of_mem o ho'))

theorem innerScan_eq (tname : String) (all : List TopicRec) (used : List String)
    (hnd : (all.map (fun t => t.topic)).Nodup) :
    innerScan tname all used
      = (all.filter (simPred tname used),
         used ++ (all.filter (simPred tname used)).map (fun t => t.topic)) := by
  have := innerScanGo_eq tname used all [] hnd (by intro o _; simp)
  simpa [innerScan] using this

theorem sum_map_filter_split {α : Type} (l : List α) (f : α → ℕ) (q : α → Bool) :
    (l.map f).sum
      = ((l.filter q).map f).sum + ((l.filter (fun x => !(q x))).map f).sum := by
  induction l with
  | nil => simp
  | cons x xs ih =>
    cases hq : q x <;> simp [List.filter_cons, hq, ih] <;> omega

theorem perm_of_nodup_subset_subset {α : Type} [DecidableEq α] {l1 l2 : List α}
    (h1 : l1.Nodup) (h2 : l2.Nodup) (s12 : ∀ x ∈ l1, x ∈ l2) (s21 : ∀ x ∈ l2, x ∈ l1) :
    l1.Perm l2 :=
  List.perm_of_nodup_nodup_toFinset_eq h1 h2
    (Finset.ext fun x => by
      simp only [List.mem_toFinset]
      exact ⟨s12 x, s21 x⟩)

theorem groupSimilarAux_sum (all : List TopicRec)
    (hndall : (all.map (fun t => t.topic)).Nodup) :
    ∀ (rest : List TopicRec), rest.Sublist all →
      ∀ (used : List String),
      (∀ o ∈ all, o.topic ∉ used → o ∈ rest) →
      ((groupSimilarAux all rest used).map (fun t => t.post_count)).sum
        = ((rest.filter (fun o => decide (o.topic ∉ used))).map
            (fun t => t.post_count)).sum := by
  intro rest
  induction rest with
  | nil => intro _ used _; simp [groupSimilarAux]
  | cons t rest ih =>
    intro hsub used hcov
    have hsub' : rest.Sublist all := (List.sublist_cons_self t rest).trans hsub
    have hndcons : ((t :: rest).map (fun x => x.topic)).Nodup :=
      List.Nodup.sublist (hsub.map _) hndall
    have htnotin : t.topic ∉ rest.map (fun x => x.topic) := (List.nodup_cons.mp hndcons).1
    by_cases ht : t.topic ∈ used
    · have hstep : groupSimilarAux all (t :: rest) used = groupSimilarAux all rest used := by
        simp only [groupSimilarAux, if_pos ht]
      have hcov' : ∀ o ∈ all, o.topic ∉ used → o ∈ rest := by
        intro o ho hou
        rcases List.mem_cons.mp (hcov o ho hou) with rfl | h
        · exact absurd ht hou
        · exact h
      rw [hstep, ih hsub' used hcov', List.filter_cons_of_neg (by simp [ht])]
    · have hscan := innerScan_eq t.topic all used hndall
      set sims := all.filter (simPred t.topic used) with hsims
      set used2 := used ++ sims.map (fun x => x.topic) ++ [t.topic] with hused2
      have hstep : groupSimilarAux all (t :: rest) used
          = (if sims.isEmpty then t else merge_topics (t :: sims))
            :: groupSimilarAux all rest used2 := by
        simp only [groupSimilarAux, if_neg ht, hscan]
      have hhead : (if sims.isEmpty then t else merge_topics (t :: sims)).post_count
          = t.post_count + (sims.map (fun x => x.post_count)).sum := by
        by_cases hse : sims.isEmpty
        · rw [if_pos hse, List.isEmpty_iff.mp hse]
          simp
        · rw [if_neg hse]
          simp [merge_topics]
      have hcov' : ∀ o ∈ all, o.topic ∉ used2 → o ∈ rest := by
        intro o ho hou
        have hnu : o.topic ∉ used := fun h => hou (by
          rw [hused2]
          exact List.mem_append_left _ (List.mem_append_left _ h))
        rcases List.mem_cons.mp (hcov o ho hnu) with rfl | h
        · exact absurd (by rw [hused2]; simp) hou
        · exact h
      have hih := ih hsub' used2 hcov'
      rw [hstep, List.map_cons, List.sum_cons, hhead, hih,
        List.filter_cons_of_pos (by simpa using ht), List.map_cons, List.sum_cons]
      -- it remains to redistribute the sims into the filtered rest
      have hallnd : all.Nodup := List.Nodup.of_map _ hndall
      have hrestnd : rest.Nodup := List.Nodup.sublist hsub' hallnd
      have hsimsnd : sims.Nodup := List.Nodup.filter _ hallnd
      have hq := sum_map_filter_split (rest.filter (fun o => decide (o.topic ∉ used)))
        (fun t => t.post_count)
        (fun o => decide (o.topic ∈ sims.map (fun x => x.topic)))
      -- part 1: the q-part is a permutation of sims
      have hperm : ((rest.filter (fun o => decide (o.topic ∉ used))).filter
          (fun o => decide (o.topic ∈ sims.map (fun x => x.topic)))).Perm sims := by
        apply perm_of_nodup_subset_subset
        · exact List.Nodup.filter _ (List.Nodup.filter _ hrestnd)
        · exact hsimsnd
        · intro o hmem
          have h1 := List.of_mem_filter hmem
          have hmem' := List.mem_of_mem_filter hmem
          have h2 := List.of_mem_filter hmem'
          have ho_rest : o ∈ rest := List.mem_of_mem_filter hmem'
          simp only [decide_eq_true_eq] at h1 h2
          obtain ⟨s, hs_mem, hs_eq⟩ := List.mem_map.mp h1
          have hs_all : s ∈ all := List.mem_of_mem_filter hs_mem
          have ho_all : o ∈ all := hsub'.subset ho_rest
          have : s = o := List.inj_on_of_nodup_map hndall hs_all ho_all hs_eq
          rw [← this]
          exact hs_mem
        · intro s hs_mem
          have hs_all : s ∈ all := List.mem_of_mem_filter hs_mem
          have hs_pred := List.of_mem_filter hs_mem
          rw [simPred, decide_eq_true_eq] at hs_pred
          obtain ⟨hs_used, hs_ne, _⟩ := hs_pred
          have hs_in : s ∈ t :: rest := hcov s hs_all hs_used
          rcases List.mem_cons.mp hs_in with rfl | hs_rest
          · exact absurd rfl hs_ne
          · apply List.mem_filter_of_mem (List.mem_filter_of_mem hs_rest ?_) ?_
            · simpa using hs_used
            · simp only [decide_eq_true_eq]
              exact List.mem_map.mpr ⟨s, hs_mem, rfl⟩
      -- part 2: the non-q part is the used2 filter
      have hsame : (rest.filter (fun o => decide (o.topic ∉ used))).filter
            (fun o => !(decide (o.topic ∈ sims.map (fun x => x.topic))))
          = rest.filter (fun o => decide (o.topic ∉ used2)) := by
        rw [List.filter_filter]
        apply List.filter_congr
        intro o ho
        have honet : o.topic ≠ t.topic := by
          intro he
          exact htnotin (he ▸ List.mem_map_of_mem (fun x => x.topic) ho)
        by_cases h1 : o.topic ∈ used
        · simp [h1, hused2]
        · by_cases h2 : o.topic ∈ sims.map (fun x => x.topic)
          · simp [h1, h2, hused2]
          · simp [h1, h2, hused2, honet]
      rw [hq, hsame, (hperm.map (fun t => t.post_count)).sum_eq]
      omega

/-- Claim C4 (amended theorem): the merge pass conserves the total
`post_count`: provided candidate topic names are distinct (which the
extraction pipeline guarantees, since candidates are distinct Counter
keys), every candidate ends up in exactly one cluster and the sum of
`post_count` over the merged output equals the sum over the input. -/
theorem group_similar_topics_conservation (ts : List TopicRec)
    (hnd : (ts.map (fun t => t.topic)).Nodup) :
    ((group_similar_topics ts).map (fun t => t.post_count)).sum
      = (ts.map (fun t => t.post_count)).sum := by
  have := groupSimilarAux_sum ts hnd ts (List.Sublist.refl ts) []
    (fun o ho _ => ho)
  rw [group_similar_topics, this]
  simp

/-- Claim C4, counterexample: the candidates `"World Cup"`,
`"World Cup 2026"`, `"Cup 2026"` form a similarity chain (the first is
similar to the second, the second to the third, each by substring
containment) but the single-pass merge returns two clusters, with
post-counts 2 and 1: the three candidates do not end up in a single merged
cluster, falsifying transitive-closure correctness.  (Conservation still
holds: 2 + 1 = 3.) -/
theorem group_similar_topics_chain_not_merged :
    are_topics_similar "World Cup" "World Cup 2026" = true ∧
    are_topics_similar "World Cup 2026" "Cup 2026" = true ∧
    group_similar_topics
        [⟨"World Cup", 1, 0, 0, 0, 0⟩, ⟨"World Cup 2026", 1, 0, 0, 0, 0⟩,
         ⟨"Cup 2026", 1, 0, 0, 0, 0⟩]
      = [⟨"World Cup 2026", 2, 0, 0, 0, 0⟩, ⟨"Cup 2026", 1, 0, 0, 0, 0⟩] ∧
    (2 : ℕ) ≠ 3 ∧ (1 : ℕ) ≠ 3 := by
  refine ⟨by decide, by decide, ?_, by decide, by decide⟩
  simp +decide [group_similar_topics, groupSimilarAux, innerScan, merge_topics, maxByLen,
    List.foldl]

/-- Claim C4, witness for `group_similar_topics_conservation` on the
three-candidate chain input. -/
theorem group_similar_topics_conservation_witness :
    ((group_similar_topics
        [⟨"World Cup", 1, 0, 0, 0, 0⟩, ⟨"World Cup 2026", 1, 0, 0, 0, 0⟩,
         ⟨"Cup 2026", 1, 0, 0, 0, 0⟩]).map (fun t => t.post_count)).sum
      = (([⟨"World Cup", 1, 0, 0, 0, 0⟩, ⟨"World Cup 2026", 1, 0, 0, 0, 0⟩,
         ⟨"Cup 2026", 1, 0, 0, 0, 0⟩] : List TopicRec).map (fun t => t.post_count)).sum :=
  group_similar_topics_conservation _ (by decide)

/-! ### Ranking and trending strength (claim C5) -/

theorem roundQ_le_roundQ (n : ℕ) {x y : ℚ} (h : x ≤ y) : roundQ n x ≤ roundQ n y := by
  unfold roundQ
  have hr : round (x * 10 ^ n) ≤ round (y * 10 ^ n) := by
    rw [round_eq, round_eq]
    apply Int.floor_mono
    have hm : x * 10 ^ n ≤ y * 10 ^ n :=
      mul_le_mul_of_nonneg_right h (by positivity)
    linarith
  have hrq : ((round (x * 10 ^ n) : ℤ) : ℚ) ≤ ((round (y * 10 ^ n) : ℤ) : ℚ) := by
    exact_mod_cast hr
  gcongr

theorem roundQ_of_mul_eq_int (n : ℕ) (x : ℚ) (z : ℤ) (hz : x * 10 ^ n = (z : ℚ)) :
    roundQ n x = x := by
  unfold roundQ
  rw [hz, round_intCast, eq_comm, eq_div_iff (by positivity : ((10 : ℚ) ^ n) ≠ 0)]
  exact hz

theorem rankTopics_getElem? (filtered : List TopicRec) (top_n : ℕ) (m : TopicRec)
    (hm : filtered.head? = some m) (i : ℕ) :
    (rankTopics filtered top_n)[i]?
      = (if i < top_n then filtered[i]? else none).map
          (fun t => (⟨t, i + 1, roundQ 1 (t.topic_score / m.topic_score * 100)⟩
            : RankedTopic)) := by
  cases filtered with
  | nil => cases hm
  | cons mh rest =>
    have hmm : m = mh := by
      have := hm
      simp only [List.head?_cons, Option.some.injEq] at this
      exact this.symm
    subst hmm
    rw [rankTopics]
    simp only [List.getElem?_map, List.getElem?_enum, List.getElem?_take]
    by_cases hi : i < top_n
    · rw [if_pos hi, Option.map_map]
      rfl
    · rw [if_neg hi]
      rfl

theorem rankTopics_length (filtered : List TopicRec) (top_n : ℕ) :
    (rankTopics filtered top_n).length = min top_n filtered.length := by
  cases filtered with
  | nil => simp [rankTopics]
  | cons mh rest =>
    rw [rankTopics]
    simp [List.length_take]

/-- Claim C5 (corrected): the returned topics carry ranks `1..N` in the
order of the merged-and-filtered list (NOT necessarily descending by
`topic_score`: merging sums scores after the sort, so a later cluster can
out-score an earlier topic), and each `trending_strength` equals
`100 x topic_score / s0` rounded to one decimal, where `s0` is the score of
the FIRST topic of the filtered list - not the maximum.  Only when the
filtered list happens to be descending with a positive first score do all
strengths lie within `[0, 100]` with the top rank at exactly 100. -/
theorem extract_top_trending_rank_structure (posts : List Post) (top_n min_posts : ℕ)
    (m : TopicRec) (hm : (filteredTopics posts top_n min_posts).head? = some m) :
    (extract_top_trending_topics posts top_n min_posts).length
        = min top_n (filteredTopics posts top_n min_posts).length ∧
    (∀ i, (extract_top_trending_topics posts top_n min_posts)[i]?
        = (if i < top_n then (filteredTopics posts top_n min_posts)[i]? else none).map
            (fun t => (⟨t, i + 1, roundQ 1 (t.topic_score / m.topic_score * 100)⟩
              : RankedTopic))) ∧
    ((∀ a ∈ filteredTopics posts top_n min_posts, a.topic_score ≤ m.topic_score) →
      0 < m.topic_score →
      ∀ p ∈ extract_top_trending_topics posts top_n min_posts,
        p.trending_strength ≤ 100) := by
  refine ⟨rankTopics_length _ _, fun i => rankTopics_getElem? _ _ m hm i, ?_⟩
  intro hmax hpos p hp
  rw [extract_top_trending_topics] at hp
  set filtered := filteredTopics posts top_n min_posts with hf
  rcases hcase : filtered with _ | ⟨mh, rest⟩
  · rw [hcase] at hp
    cases hp
  · rw [hcase] at hp
    simp only [rankTopics, List.mem_map] at hp
    obtain ⟨⟨i, t⟩, hmem, rfl⟩ := hp
    have hmb : mh = m := by
      rw [hcase] at hm
      simp only [List.head?_cons, Option.some.injEq] at hm
      exact hm
    have ht : t ∈ filtered := by
      obtain ⟨hlt, heq⟩ := List.mem_enum hmem
      rw [hcase]
      exact List.mem_of_mem_take (heq ▸ List.getElem_mem hlt)
    have hle : t.topic_score ≤ m.topic_score := hmax t ht
    dsimp only
    rw [hmb]
    have hdiv : t.topic_score / m.topic_score * 100 ≤ 100 := by
      have : t.topic_score / m.topic_score ≤ 1 := by
        rw [div_le_one hpos]
        exact hle
      nlinarith
    have h100 : roundQ 1 (100 : ℚ) = 100 :=
      roundQ_of_mul_eq_int 1 100 1000 (by norm_num)
    calc roundQ 1 (t.topic_score / m.topic_score * 100)
        ≤ roundQ 1 100 := roundQ_le_roundQ 1 hdiv
      _ = 100 := h100

/-- Claim C5, counterexample: three posts whose titles yield the keywords
"Bitcoin" (scored 100), "World Cup" (scored 60 thanks to a score of -80)
and "World Cup 2026" (scored 55).  After sorting, the two "World Cup"
topics merge into a cluster scored 115 which sits AFTER "Bitcoin" (100):
the returned list is not sorted descending by `topic_score`, the second
topic's `trending_strength` is 115 (outside [0, 100] and different from
`100 x 115 / 115 = 100`), because strengths are normalised by the first
topic's score rather than the maximum. -/
theorem extract_top_trending_not_sorted_strength_above_100 :
    extract_top_trending_topics
        [⟨["Bitcoin"], 0, 0, 0⟩, ⟨["World Cup"], -80, 0, 0⟩,
         ⟨["World Cup 2026"], -90, 0, 0⟩] 10 1
      = [⟨⟨"Bitcoin", 1, 0, 0, 0, 100⟩, 1, 100⟩,
         ⟨⟨"World Cup 2026", 2, -170, 0, 0, 115⟩, 2, 115⟩] ∧
    (100 : ℚ) < 115 ∧ ¬ ((115 : ℚ) ≤ 100) ∧
    roundQ 1 ((115 : ℚ) / 115 * 100) = 100 ∧ (115 : ℚ) ≠ 100 := by
  refine ⟨?_, by norm_num, by norm_num, ?_, by norm_num⟩
  · set P : List Post :=
      [⟨["Bitcoin"], 0, 0, 0⟩, ⟨["World Cup"], -80, 0, 0⟩, ⟨["World Cup 2026"], -90, 0, 0⟩]
      with hP
    have hkw : mostCommon P 60 = ["Bitcoin", "World Cup", "World Cup 2026"] := by
      rw [hP]; decide
    have hb : mkTopic P "Bitcoin" = ⟨"Bitcoin", 1, 0, 0, 0, 100⟩ := by
      rw [hP]
      simp [mkTopic, mentionsOf, allKeywords, roundQ, round_eq]
      norm_num
    have hw : mkTopic P "World Cup" = ⟨"World Cup", 1, -80, 0, 0, 60⟩ := by
      rw [hP]
      simp [mkTopic, mentionsOf, allKeywords, roundQ, round_eq]
      norm_num
    have hw2 : mkTopic P "World Cup 2026" = ⟨"World Cup 2026", 1, -90, 0, 0, 55⟩ := by
      rw [hP]
      simp [mkTopic, mentionsOf, allKeywords, roundQ, round_eq]
      norm_num
    have hsort : sortByScoreDesc [⟨"Bitcoin", 1, 0, 0, 0, 100⟩, ⟨"World Cup", 1, -80, 0, 0, 60⟩,
        ⟨"World Cup 2026", 1, -90, 0, 0, 55⟩]
        = [⟨"Bitcoin", 1, 0, 0, 0, 100⟩, ⟨"World Cup", 1, -80, 0, 0, 60⟩,
           ⟨"World Cup 2026", 1, -90, 0, 0, 55⟩] := by
      simp [sortByScoreDesc, insertScoreDesc]
      norm_num
    have hgroup : group_similar_topics [⟨"Bitcoin", 1, 0, 0, 0, 100⟩,
        ⟨"World Cup", 1, -80, 0, 0, 60⟩, ⟨"World Cup 2026", 1, -90, 0, 0, 55⟩]
        = [⟨"Bitcoin", 1, 0, 0, 0, 100⟩, ⟨"World Cup 2026", 2, -170, 0, 0, 115⟩] := by
      simp +decide [group_similar_topics, groupSimilarAux, innerScan, merge_topics, maxByLen,
        List.foldl]
      norm_num
    have hextract : extract_topics_from_posts P 20
        = [⟨"Bitcoin", 1, 0, 0, 0, 100⟩, ⟨"World Cup 2026", 2, -170, 0, 0, 115⟩] := by
      rw [extract_topics_from_posts, if_neg (by rw [hP]; decide)]
      rw [show (20 : ℕ) * 3 = 60 from rfl, hkw]
      simp only [List.map_cons, List.map_nil, hb, hw, hw2, hsort, hgroup]
      rfl
    rw [extract_top_trending_topics, filteredTopics]
    rw [show (10 : ℕ) * 2 = 20 from rfl, hextract]
    simp only [List.filter]
    norm_num [rankTopics, List.enum, roundQ, round_eq]
  · rw [show (115 : ℚ) / 115 * 100 = 100 by norm_num]
    exact roundQ_of_mul_eq_int 1 100 1000 (by norm_num)

/-- Claim C5, witness for `extract_top_trending_rank_structure` on a
single-post input whose only topic is "Solo". -/
theorem extract_top_trending_rank_structure_witness :
    (filteredTopics [(⟨["Solo"], 0, 0, 0⟩ : Post)] 10 1).head?
        = some ⟨"Solo", 1, 0, 0, 0, 100⟩ ∧
    (extract_top_trending_topics [(⟨["Solo"], 0, 0, 0⟩ : Post)] 10 1).length
        = min 10 (filteredTopics [(⟨["Solo"], 0, 0, 0⟩ : Post)] 10 1).length := by
  have hextract : extract_topics_from_posts [(⟨["Solo"], 0, 0, 0⟩ : Post)] 20
      = [⟨"Solo", 1, 0, 0, 0, 100⟩] := by
    rw [extract_topics_from_posts, if_neg (by decide)]
    have hkw : mostCommon [(⟨["Solo"], 0, 0, 0⟩ : Post)] 60 = ["Solo"] := by decide
    rw [show (20 : ℕ) * 3 = 60 from rfl, hkw]
    have hs : mkTopic [(⟨["Solo"], 0, 0, 0⟩ : Post)] "Solo" = ⟨"Solo", 1, 0, 0, 0, 100⟩ := by
      simp [mkTopic, mentionsOf, allKeywords, roundQ, round_eq]
      norm_num
    simp only [List.map_cons, List.map_nil, hs]
    have hso : sortByScoreDesc [(⟨"Solo", 1, 0, 0, 0, 100⟩ : TopicRec)]
        = [⟨"Solo", 1, 0, 0, 0, 100⟩] := by
      simp [sortByScoreDesc, insertScoreDesc]
    rw [hso]
    simp +decide [group_similar_topics, groupSimilarAux, innerScan, List.foldl]
  have hfil : filteredTopics [(⟨["Solo"], 0, 0, 0⟩ : Post)] 10 1
      = [⟨"Solo", 1, 0, 0, 0, 100⟩] := by
    rw [filteredTopics, show (10 : ℕ) * 2 = 20 from rfl, hextract]
    simp
  refine ⟨by rw [hfil]; rfl, ?_⟩
  exact (extract_top_trending_rank_structure [(⟨["Solo"], 0, 0, 0⟩ : Post)] 10 1
    ⟨"Solo", 1, 0, 0, 0, 100⟩ (by rw [hfil]; rfl)).1

/-! ### Topic scoring (claim C7) -/

theorem allKeywords_cons (p : Post) (ps : List Post) :
    allKeywords (p :: ps) = p.keywords ++ allKeywords ps := by
  rfl

theorem count_allKeywords (posts : List Post) (k : String) :
    (allKeywords posts).count k = (posts.map (fun p => p.keywords.count k)).sum := by
  induction posts with
  | nil => rfl
  | cons p ps ih =>
    rw [allKeywords_cons]
    simp only [List.count_append, List.map_cons, List.sum_cons, ih]

theorem mentionsOf_cons (p : Post) (ps : List Post) (k : String) :
    mentionsOf (p :: ps) k
      = (p.keywords.filter (fun y => decide (y = k))).map (fun _ => p) ++ mentionsOf ps k := by
  rfl

theorem map_const_sum {α β : Type} [AddCommMonoid β] (l : List α) (b : β) :
    (l.map (fun _ => b)).sum = l.length • b := by
  induction l with
  | nil => simp
  | cons x xs ih =>
    simp only [List.map_cons, List.sum_cons, ih, List.length_cons, succ_nsmul]
    rw [add_comm]

theorem filter_eq_length_count (l : List String) (k : String) :
    (l.filter (fun y => decide (y = k))).length = l.count k := by
  induction l with
  | nil => rfl
  | cons x xs ih =>
    by_cases hx : x = k
    · simp [List.filter_cons, hx, ih, List.count_cons]
    · simp [List.filter_cons, hx, ih, List.count_cons]

theorem mentionsOf_map_sum {β : Type} [AddCommMonoid β] (posts : List Post) (k : String)
    (f : Post → β) :
    ((mentionsOf posts k).map f).sum
      = (posts.map (fun p => (p.keywords.count k) • f p)).sum := by
  induction posts with
  | nil => rfl
  | cons p ps ih =>
    rw [mentionsOf_cons]
    simp only [List.map_append, List.sum_append, ih, List.map_cons, List.sum_cons]
    congr 1
    rw [List.map_map]
    calc ((p.keywords.filter (fun y => decide (y = k))).map (f ∘ (fun _ => p))).sum
        = ((p.keywords.filter (fun y => decide (y = k))).map (fun _ => f p)).sum := rfl
      _ = (p.keywords.filter (fun y => decide (y = k))).length • f p := map_const_sum _ _
      _ = (p.keywords.count k) • f p := by rw [filter_eq_length_count]

theorem mentionsOf_length (posts : List Post) (k : String) :
    (mentionsOf posts k).length = (allKeywords posts).count k := by
  have h := mentionsOf_map_sum posts k (fun _ => (1 : ℕ))
  simp only [smul_eq_mul, mul_one] at h
  calc (mentionsOf posts k).length
      = ((mentionsOf posts k).map (fun _ => (1 : ℕ))).sum := by
        rw [map_const_sum]
        simp
    _ = (posts.map (fun p => p.keywords.count k)).sum := h
    _ = (allKeywords posts).count k := (count_allKeywords posts k).symm

/-- Claim C7 (amended theorem): every pre-merge candidate record computed by
`extract_topics_from_posts` for a keyword `k` carries the mention-weighted
aggregates: `post_count` is the total number of MENTIONS of `k` (a post's
title can produce the same keyword several times and is counted once per
occurrence), `total_score`, `total_comments` and the velocity average are
likewise weighted by each post's mention multiplicity, and
`topic_score = round2(100*post_count + 0.5*total_score + 2*total_comments
+ 10*avg_velocity)` over those mention-weighted sums. -/
theorem extract_topics_scores_per_mention (posts : List Post) (top_n : ℕ) :
    ∀ t ∈ (mostCommon posts (top_n * 3)).map (mkTopic posts),
      ∃ k : String, t.topic = k ∧
        t.post_count = (posts.map (fun p => p.keywords.count k)).sum ∧
        t.total_score = (posts.map (fun p => (p.keywords.count k : ℤ) * p.score)).sum ∧
        t.total_comments
          = (posts.map (fun p => (p.keywords.count k : ℤ) * p.num_comments)).sum ∧
        t.topic_score
          = roundQ 2 ((t.post_count : ℚ) * 100 + (t.total_score : ℚ) * (1/2)
              + (t.total_comments : ℚ) * 2
              + ((posts.map (fun p => (p.keywords.count k : ℚ) * p.velocity)).sum
                  / (t.post_count : ℚ)) * 10) := by
  intro t ht
  obtain ⟨k, _, rfl⟩ := List.mem_map.mp ht
  refine ⟨k, rfl, ?_, ?_, ?_, ?_⟩
  · rw [mkTopic]
    exact count_allKeywords posts k
  · rw [mkTopic]
    have := mentionsOf_map_sum posts k (fun p => p.score)
    simpa [nsmul_eq_mul] using this
  · rw [mkTopic]
    have := mentionsOf_map_sum posts k (fun p => p.num_comments)
    simpa [nsmul_eq_mul] using this
  · rw [mkTopic]
    have hv := mentionsOf_map_sum posts k (fun p => p.velocity)
    have hl := mentionsOf_length posts k
    have hc := count_allKeywords posts k
    simp only [nsmul_eq_mul] at hv
    rw [hv, hl, hc]

/-- Following the claim's words, for comparison: the topic score recomputed
with `total_score`, `total_comments` and `avg_velocity` taken over the
items whose title produced the keyword, each contributing item counted
ONCE (not once per mention). -/
def claimTopicScoreOnce (posts : List Post) (k : String) : ℚ :=
  let items := posts.filter (fun p => decide (k ∈ p.keywords))
  ((allKeywords posts).count k : ℚ) * 100
    + ((items.map (fun p => p.score)).sum : ℚ) * (1/2)
    + ((items.map (fun p => p.num_comments)).sum : ℚ) * 2
    + ((items.map (fun p => p.velocity)).sum / (items.length : ℚ)) * 10

/-- Claim C7, counterexample: a single post whose title is "Tesla" yields
the keyword list `["Tesla", "Tesla"]` (the title-case regex pass and the
capitalized-word pass of `extract_keywords_from_text` both match), so with
`score = 10` the code computes `topic_score = 2*100 + 0.5*20 = 210`,
double-counting the post's score across its two mentions, while the
claim's items-counted-once formula gives `2*100 + 0.5*10 = 205`. -/
theorem extract_topics_double_counts_mentions :
    extract_topics_from_posts [⟨["Tesla", "Tesla"], 10, 0, 0⟩] 20
      = [⟨"Tesla", 2, 20, 0, 0, 210⟩] ∧
    claimTopicScoreOnce [⟨["Tesla", "Tesla"], 10, 0, 0⟩] "Tesla" = 205 ∧
    (210 : ℚ) ≠ 205 := by
  refine ⟨?_, ?_, by norm_num⟩
  · rw [extract_topics_from_posts, if_neg (by decide)]
    have hkw : mostCommon [(⟨["Tesla", "Tesla"], 10, 0, 0⟩ : Post)] 60 = ["Tesla"] := by
      decide
    rw [show (20 : ℕ) * 3 = 60 from rfl, hkw]
    have hmk : mkTopic [(⟨["Tesla", "Tesla"], 10, 0, 0⟩ : Post)] "Tesla"
        = ⟨"Tesla", 2, 20, 0, 0, 210⟩ := by
      simp [mkTopic, mentionsOf, allKeywords, roundQ, round_eq]
      norm_num
    simp only [List.map_cons, List.map_nil, hmk]
    have hso : sortByScoreDesc [(⟨"Tesla", 2, 20, 0, 0, 210⟩ : TopicRec)]
        = [⟨"Tesla", 2, 20, 0, 0, 210⟩] := by
      simp [sortByScoreDesc, insertScoreDesc]
    rw [hso]
    simp +decide [group_similar_topics, groupSimilarAux, innerScan, List.foldl]
  · rw [claimTopicScoreOnce]
    simp [allKeywords]
    norm_num

/-- Claim C7, witness for `extract_topics_scores_per_mention` at the
double-mention input: the candidate for "Tesla" satisfies the
mention-weighted aggregates. -/
theorem extract_topics_scores_per_mention_witness :
    ∃ k : String, (mkTopic [(⟨["Tesla", "Tesla"], 10, 0, 0⟩ : Post)] "Tesla").topic = k ∧
      (mkTopic [(⟨["Tesla", "Tesla"], 10, 0, 0⟩ : Post)] "Tesla").post_count
        = (([⟨["Tesla", "Tesla"], 10, 0, 0⟩] : List Post).map
            (fun p => p.keywords.count k)).sum ∧
      (mkTopic [(⟨["Tesla", "Tesla"], 10, 0, 0⟩ : Post)] "Tesla").total_score
        = (([⟨["Tesla", "Tesla"], 10, 0, 0⟩] : List Post).map
            (fun p => (p.keywords.count k : ℤ) * p.score)).sum ∧
      (mkTopic [(⟨["Tesla", "Tesla"], 10, 0, 0⟩ : Post)] "Tesla").total_comments
        = (([⟨["Tesla", "Tesla"], 10, 0, 0⟩] : List Post).map
            (fun p => (p.keywords.count k : ℤ) * p.num_comments)).sum ∧
      (mkTopic [(⟨["Tesla", "Tesla"], 10, 0, 0⟩ : Post)] "Tesla").topic_score
        = roundQ 2
            (((mkTopic [(⟨["Tesla", "Tesla"], 10, 0, 0⟩ : Post)] "Tesla").post_count : ℚ) * 100
              + ((mkTopic [(⟨["Tesla", "Tesla"], 10, 0, 0⟩ : Post)] "Tesla").total_score : ℚ)
                  * (1/2)
              + ((mkTopic [(⟨["Tesla", "Tesla"], 10, 0, 0⟩ : Post)] "Tesla").total_comments : ℚ)
                  * 2
              + ((([⟨["Tesla", "Tesla"], 10, 0, 0⟩] : List Post).map
                    (fun p => (p.keywords.count k : ℚ) * p.velocity)).sum
                  / ((mkTopic [(⟨["Tesla", "Tesla"], 10, 0, 0⟩ : Post)] "Tesla").post_count : ℚ))
                  * 10) :=
  extract_topics_scores_per_mention [⟨["Tesla", "Tesla"], 10, 0, 0⟩] 20
    (mkTopic [(⟨["Tesla", "Tesla"], 10, 0, 0⟩ : Post)] "Tesla")
    (by
      have hkw : mostCommon [(⟨["Tesla", "Tesla"], 10, 0, 0⟩ : Post)] 60 = ["Tesla"] := by
        decide
      rw [show (20 : ℕ) * 3 = 60 from rfl, hkw]
      exact List.mem_map_of_mem _ (List.mem_singleton.mpr rfl))

/-! ## Velocity and trending score (backend/src/trending_discovery.py) -/

/-- `engagement_score = score + num_comments * 2`
(fetch_trending_posts line 74). -/
def engagement (score num_comments : ℤ) : ℤ :=
  score + num_comments * 2

/-- `velocity = engagement_score / max(hours_old, 0.1)`
(fetch_trending_posts lines 71-75). -/
def velocityOf (score num_comments : ℤ) (hours_old : ℚ) : ℚ :=
  (engagement score num_comments : ℚ) / max hours_old (1/10)

/-- `calculate_trending_score` (trending_discovery.py lines 126-147):
`(velocity*0.5 + engagement*0.3 + awards*10*0.1) * max(1.0, 2.0 - hours_old/24)`,
with the row's `velocity` as computed by the fetch for the same age. -/
def calculate_trending_score (score num_comments awards : ℤ) (hours_old : ℚ) : ℚ :=
  (velocityOf score num_comments hours_old * (1/2)
    + (engagement score num_comments : ℚ) * (3/10)
    + (awards : ℚ) * 10 * (1/10))
    * max 1 (2 - hours_old / 24)

/-- Claim C8 (amended theorem): the trending score equals
`(0.5*velocity + 0.3*engagement + 0.1*(awards*10)) * max(1, 2 - age/24)`
with `engagement = score + 2*comments` and
`velocity = engagement / max(age, 0.1)`; it is monotone in `score`,
`comment_count` and `awards` unconditionally, and monotonically
non-increasing in age PROVIDED the item's engagement and awards are
nonnegative (for negatively-scored items the score can grow with age). -/
theorem calculate_trending_score_spec (score num_comments awards : ℤ) (h : ℚ) :
    calculate_trending_score score num_comments awards h
      = ((engagement score num_comments : ℚ) / max h (1/10) * (1/2)
          + (engagement score num_comments : ℚ) * (3/10)
          + (awards : ℚ) * 10 * (1/10)) * max 1 (2 - h / 24) ∧
    (∀ s1 s2 : ℤ, s1 ≤ s2 →
      calculate_trending_score s1 num_comments awards h
        ≤ calculate_trending_score s2 num_comments awards h) ∧
    (∀ c1 c2 : ℤ, c1 ≤ c2 →
      calculate_trending_score score c1 awards h
        ≤ calculate_trending_score score c2 awards h) ∧
    (∀ a1 a2 : ℤ, a1 ≤ a2 →
      calculate_trending_score score num_comments a1 h
        ≤ calculate_trending_score score num_comments a2 h) ∧
    (∀ h1 h2 : ℚ, h1 ≤ h2 → 0 ≤ engagement score num_comments → 0 ≤ awards →
      calculate_trending_score score num_comments awards h2
        ≤ calculate_trending_score score num_comments awards h1) := by
  have hmpos : ∀ x : ℚ, (0 : ℚ) < max x (1/10) :=
    fun x => lt_of_lt_of_le (by norm_num) (le_max_right x (1/10))
  have hRpos : ∀ x : ℚ, (0 : ℚ) ≤ max 1 (2 - x / 24) :=
    fun x => le_trans zero_le_one (le_max_left _ _)
  refine ⟨rfl, ?_, ?_, ?_, ?_⟩
  · intro s1 s2 hs
    unfold calculate_trending_score velocityOf
    have he : (engagement s1 num_comments : ℚ) ≤ (engagement s2 num_comments : ℚ) := by
      unfold engagement
      push_cast
      have : (s1 : ℚ) ≤ (s2 : ℚ) := by exact_mod_cast hs
      linarith
    apply mul_le_mul_of_nonneg_right ?_ (hRpos h)
    have hv := (div_le_div_iff_of_pos_right (hmpos h)).mpr he
    nlinarith [hv, he]
  · intro c1 c2 hc
    unfold calculate_trending_score velocityOf
    have he : (engagement score c1 : ℚ) ≤ (engagement score c2 : ℚ) := by
      unfold engagement
      push_cast
      have : (c1 : ℚ) ≤ (c2 : ℚ) := by exact_mod_cast hc
      linarith
    apply mul_le_mul_of_nonneg_right ?_ (hRpos h)
    have hv := (div_le_div_iff_of_pos_right (hmpos h)).mpr he
    nlinarith [hv, he]
  · intro a1 a2 ha
    unfold calculate_trending_score velocityOf
    apply mul_le_mul_of_nonneg_right ?_ (hRpos h)
    have ha' : (a1 : ℚ) ≤ (a2 : ℚ) := by exact_mod_cast ha
    nlinarith [ha']
  · intro h1 h2 h12 hE hA
    unfold calculate_trending_score velocityOf
    have hE' : (0 : ℚ) ≤ (engagement score num_comments : ℚ) := by exact_mod_cast hE
    have hA' : (0 : ℚ) ≤ (awards : ℚ) := by exact_mod_cast hA
    have hmle : max h1 (1/10) ≤ max h2 (1/10) := max_le_max h12 le_rfl
    have hv : (engagement score num_comments : ℚ) / max h2 (1/10)
        ≤ (engagement score num_comments : ℚ) / max h1 (1/10) :=
      div_le_div_of_nonneg_left hE' (hmpos h1) hmle
    have hvpos : (0 : ℚ) ≤ (engagement score num_comments : ℚ) / max h2 (1/10) :=
      div_nonneg hE' (le_of_lt (hmpos h2))
    have hR : max 1 (2 - h2 / 24) ≤ max 1 (2 - h1 / 24) :=
      max_le_max le_rfl (by linarith)
    have hB2 : (0 : ℚ) ≤ (engagement score num_comments : ℚ) / max h2 (1/10) * (1/2)
        + (engagement score num_comments : ℚ) * (3/10) + (awards : ℚ) * 10 * (1/10) := by
      nlinarith [hvpos, hE', hA']
    calc ((engagement score num_comments : ℚ) / max h2 (1/10) * (1/2)
            + (engagement score num_comments : ℚ) * (3/10) + (awards : ℚ) * 10 * (1/10))
          * max 1 (2 - h2 / 24)
        ≤ ((engagement score num_comments : ℚ) / max h2 (1/10) * (1/2)
            + (engagement score num_comments : ℚ) * (3/10) + (awards : ℚ) * 10 * (1/10))
          * max 1 (2 - h1 / 24) := mul_le_mul_of_nonneg_left hR hB2
      _ ≤ ((engagement score num_comments : ℚ) / max h1 (1/10) * (1/2)
            + (engagement score num_comments : ℚ) * (3/10) + (awards : ℚ) * 10 * (1/10))
          * max 1 (2 - h1 / 24) := by
            apply mul_le_mul_of_nonneg_right ?_ (hRpos h1)
            nlinarith [hv]

/-- Claim C8, counterexample: an item with `score = -10`, no comments and
no awards (negative engagement).  Aged 10 hours it scores `-133/24`; aged
20 hours it scores `-91/24 > -133/24`: the trending score INCREASES with
age, refuting unconditional monotone decrease in age (engagement held
fixed at -10 throughout). -/
theorem calculate_trending_score_age_not_monotone :
    calculate_trending_score (-10) 0 0 10 = -133/24 ∧
    calculate_trending_score (-10) 0 0 20 = -91/24 ∧
    (0 : ℚ) ≤ 10 ∧ (10 : ℚ) ≤ 20 ∧
    calculate_trending_score (-10) 0 0 10 < calculate_trending_score (-10) 0 0 20 := by
  have e10 : calculate_trending_score (-10) 0 0 10 = -133/24 := by
    unfold calculate_trending_score velocityOf engagement
    rw [max_eq_left (by norm_num : (1/10 : ℚ) ≤ 10),
      max_eq_right (by norm_num : (1 : ℚ) ≤ 2 - 10/24)]
    norm_num
  have e20 : calculate_trending_score (-10) 0 0 20 = -91/24 := by
    unfold calculate_trending_score velocityOf engagement
    rw [max_eq_left (by norm_num : (1/10 : ℚ) ≤ 20),
      max_eq_right (by norm_num : (1 : ℚ) ≤ 2 - 20/24)]
    norm_num
  exact ⟨e10, e20, by norm_num, by norm_num, by rw [e10, e20]; norm_num⟩

/-- Claim C8, witness for `calculate_trending_score_spec` at
`score = 5, comments = 3, awards = 1, age = 12`: monotone steps hold. -/
theorem calculate_trending_score_spec_witness :
    calculate_trending_score 5 3 1 12 ≤ calculate_trending_score 7 3 1 12 ∧
    calculate_trending_score 5 3 1 24 ≤ calculate_trending_score 5 3 1 12 := by
  constructor
  · exact (calculate_trending_score_spec 5 3 1 12).2.1 5 7 (by norm_num)
  · exact (calculate_trending_score_spec 5 3 1 12).2.2.2.2 12 24 (by norm_num)
      (by unfold engagement; norm_num) (by norm_num)

/-! ## Sentiment forecaster (backend/src/sentiment_predictor.py)

Items carry a timestamp (hours) and a label; `sentiment_score` is the
value paired with the label by `analyze_sentiment` (+1, -1 or 0).  The
`std` of the last five training averages (line 173,
`training_data['avg_sentiment'].tail(5).std()`, a sample standard
deviation) is generally irrational, so it is passed as an explicit
parameter `stdv`; `sampleVar` below gives its defining equation
(`stdv ≥ 0` and `stdv ^ 2 = sampleVar (tail5 ...)`), and every concrete
input used in a closed theorem is chosen so that the true `stdv` is
rational and supplied exactly.  The clamping results hold for every
`stdv`. -/

def sentVal : Lab → ℤ
  | Lab.pos => 1
  | Lab.neg => -1
  | Lab.neu => 0

structure Item where
  time : ℚ
  label : Lab
deriving DecidableEq, Repr

/-- One row of the trend dataframe built by `calculate_sentiment_trends`
(lines 93-101). -/
structure TrendPoint where
  timestamp : ℚ
  avg_sentiment : ℚ
  sentiment_ratio : ℚ
  positive_count : ℕ
  negative_count : ℕ
  neutral_count : ℕ
  total_posts : ℕ
deriving DecidableEq, Repr

def listMinD (l : List ℚ) : ℚ :=
  match l with
  | [] => 0
  | x :: xs => xs.foldl min x

def listMaxD (l : List ℚ) : ℚ :=
  match l with
  | [] => 0
  | x :: xs => xs.foldl max x

/-- The per-interval statistics of `calculate_sentiment_trends`
(lines 68-101) for the bucket `[s, e)`. -/
def mkTrendPoint (items : List Item) (s e : ℚ) : TrendPoint :=
  let ps := items.filter (fun it => decide (s ≤ it.time) && decide (it.time < e))
  if 0 < ps.length then
    { timestamp := s
      avg_sentiment := ((ps.map (fun it => sentVal it.label)).sum : ℚ) / (ps.length : ℚ)
      sentiment_ratio :=
        (((ps.filter (fun it => decide (it.label = Lab.pos))).length : ℚ)
          - ((ps.filter (fun it => decide (it.label = Lab.neg))).length : ℚ))
          / (ps.length : ℚ)
      positive_count := (ps.filter (fun it => decide (it.label = Lab.pos))).length
      negative_count := (ps.filter (fun it => decide (it.label = Lab.neg))).length
      neutral_count := (ps.filter (fun it => decide (it.label = Lab.neu))).length
      total_posts := ps.length }
  else
    { timestamp := s, avg_sentiment := 0, sentiment_ratio := 0, positive_count := 0
      negative_count := 0, neutral_count := 0, total_posts := 0 }

/-- Model of `calculate_sentiment_trends` (lines 36-103): intervals from
`min_time.floor(h)` to `max_time.ceil(h)` (multiples of the interval
width), one TrendPoint per consecutive pair of interval edges. -/
def calculate_sentiment_trends (items : List Item) (interval_hours : ℕ) : List TrendPoint :=
  if items.isEmpty then []
  else
    let h : ℚ := (interval_hours : ℚ)
    let lo := h * ⌊listMinD (items.map (fun it => it.time)) / h⌋
    let hi := h * ⌈listMaxD (items.map (fun it => it.time)) / h⌉
    (bucketsOf lo hi h).map (fun se => mkTrendPoint items se.1 se.2)

inductive SLabel where
  | positive : SLabel
  | negative : SLabel
  | neutral : SLabel
deriving DecidableEq, Repr

structure PredictionPoint where
  timestamp : ℚ
  hours_ahead : ℕ
  predicted_sentiment_score : ℚ
  predicted_sentiment_ratio : ℚ
  predicted_sentiment : SLabel
  confidence : ℚ
deriving DecidableEq, Repr

/-- The label thresholds used by both methods (lines 165-170 and 250-255),
applied to the clipped prediction. -/
def labelOf (x : ℚ) : SLabel :=
  if x > 1/10 then SLabel.positive
  else if x < -(1/10) then SLabel.negative
  else SLabel.neutral

/-- `np.clip(x, -1, 1)`. -/
def clip1 (x : ℚ) : ℚ :=
  min (max x (-1)) 1

/-- Ordinary least-squares slope and intercept, the closed form of
`sklearn.linear_model.LinearRegression().fit` on one feature (exact
rational arithmetic). -/
def olsFit (xs ys : List ℚ) : ℚ × ℚ :=
  let n : ℚ := (xs.length : ℚ)
  let xbar := xs.sum / n
  let ybar := ys.sum / n
  let sxx := (xs.map (fun x => (x - xbar) ^ 2)).sum
  let sxy := ((xs.zip ys).map (fun p => (p.1 - xbar) * (p.2 - ybar))).sum
  let slope := sxy / sxx
  (slope, ybar - slope * xbar)

def tail5 (l : List ℚ) : List ℚ :=
  l.drop (l.length - 5)

/-- Sample variance (`pandas .std()` squared, `ddof = 1`). -/
def sampleVar (l : List ℚ) : ℚ :=
  let n : ℚ := (l.length : ℚ)
  let m := l.sum / n
  (l.map (fun x => (x - m) ^ 2)).sum / (n - 1)

/-- Model of `predict_sentiment_linear` (lines 106-185). -/
def predict_sentiment_linear (trend : List TrendPoint) (hours_ahead interval_hours : ℕ)
    (stdv : ℚ) : List PredictionPoint :=
  if trend.isEmpty || decide (trend.length < 3) then []
  else
    let training := trend.filter (fun p => decide (0 < p.total_posts))
    if training.length < 2 then []
    else
      let t0 := listMinD (training.map (fun p => p.timestamp))
      let xs := training.map (fun p => p.timestamp - t0)
      let fitA := olsFit xs (training.map (fun p => p.avg_sentiment))
      let fitR := olsFit xs (training.map (fun p => p.sentiment_ratio))
      let last_ts := listMaxD (trend.map (fun p => p.timestamp))
      let num := hours_ahead / interval_hours
      let conf := max (3/10) (min (95/100) (1 - stdv))
      (List.range num).map (fun (i : ℕ) =>
        let future := last_ts + (interval_hours : ℚ) * ((i : ℚ) + 1)
        let x := future - t0
        let pa := clip1 (fitA.2 + fitA.1 * x)
        let pr := clip1 (fitR.2 + fitR.1 * x)
        { timestamp := future
          hours_ahead := interval_hours * (i + 1)
          predicted_sentiment_score := roundQ 3 pa
          predicted_sentiment_ratio := roundQ 3 pr
          predicted_sentiment := labelOf pa
          confidence := roundQ 2 conf })

/-- Model of `predict_sentiment_moving_average` (lines 188-270). -/
def predict_sentiment_moving_average (trend : List TrendPoint)
    (hours_ahead interval_hours window_size : ℕ) : List PredictionPoint :=
  if trend.isEmpty || decide (trend.length < 2) then []
  else
    let data := trend.filter (fun p => decide (0 < p.total_posts))
    if data.length < 2 then []
    else
      let recent := data.drop (data.length - window_size)
      let recent_avg := (recent.map (fun p => p.avg_sentiment)).sum / (recent.length : ℚ)
      let recent_ratio := (recent.map (fun p => p.sentiment_ratio)).sum / (recent.length : ℚ)
      let trend_rate :=
        if 2 ≤ recent.length then
          let fh := recent.take (recent.length / 2)
          let sh := recent.drop (recent.length - recent.length / 2)
          (((sh.map (fun p => p.avg_sentiment)).sum / (sh.length : ℚ))
            - ((fh.map (fun p => p.avg_sentiment)).sum / (fh.length : ℚ)))
            / (recent.length : ℚ)
        else 0
      let last_ts := listMaxD (trend.map (fun p => p.timestamp))
      let num := hours_ahead / interval_hours
      (List.range num).map (fun (i : ℕ) =>
        let decay := (85/100 : ℚ) ^ (i + 1)
        let pa := clip1 (recent_avg + trend_rate * ((i : ℚ) + 1) * decay)
        let pr := clip1 (recent_ratio + trend_rate * ((i : ℚ) + 1) * decay * (1/2))
        { timestamp := last_ts + (interval_hours : ℚ) * ((i : ℚ) + 1)
          hours_ahead := interval_hours * (i + 1)
          predicted_sentiment_score := roundQ 3 pa
          predicted_sentiment_ratio := roundQ 3 pr
          predicted_sentiment := labelOf pa
          confidence := roundQ 2 ((85/100) * decay) })

/-- The pointwise averaging of the hybrid branch (lines 320-334): score,
ratio and confidence are averaged; the LABEL is taken from the linear
point. -/
def hybridCombine (lp mp : List PredictionPoint) : List PredictionPoint :=
  (lp.zip mp).map (fun q =>
    { timestamp := q.1.timestamp
      hours_ahead := q.1.hours_ahead
      predicted_sentiment_score :=
        roundQ 3 ((q.1.predicted_sentiment_score + q.2.predicted_sentiment_score) / 2)
      predicted_sentiment_ratio :=
        roundQ 3 ((q.1.predicted_sentiment_ratio + q.2.predicted_sentiment_ratio) / 2)
      predicted_sentiment := q.1.predicted_sentiment
      confidence := roundQ 2 ((q.1.confidence + q.2.confidence) / 2) })

/-- The forecaster's result: predictions plus the optional error string
(the `historical_summary` dict, which no verified property mentions, is
omitted). -/
structure PredictionResult where
  predictions : List PredictionPoint
  error : Option String
deriving DecidableEq, Repr

/-- Model of `predict_sentiment` (lines 273-362). -/
def predict_sentiment (items : List Item) (hours_ahead interval_hours : ℕ)
    (method : String) (stdv : ℚ) : PredictionResult :=
  if items.isEmpty then ⟨[], some "No data available for prediction"⟩
  else
    let trend := calculate_sentiment_trends items interval_hours
    if trend.isEmpty || decide (trend.length < 2) then
      ⟨[], some "Insufficient data for prediction"⟩
    else
      let predictions :=
        if method = "linear" then
          predict_sentiment_linear trend hours_ahead interval_hours stdv
        else if method = "moving_average" then
          predict_sentiment_moving_average trend hours_ahead interval_hours 5
        else
          let lp := predict_sentiment_linear trend hours_ahead interval_hours stdv
          let mp := predict_sentiment_moving_average trend hours_ahead interval_hours 5
          if !lp.isEmpty && !mp.isEmpty then hybridCombine lp mp
          else if lp.isEmpty then mp else lp
      ⟨predictions, none⟩

/-! ### Clamping (claim C9) -/

theorem clip1_bounds (x : ℚ) : -1 ≤ clip1 x ∧ clip1 x ≤ 1 := by
  unfold clip1
  constructor
  · exact le_min (le_trans (by norm_num) (le_max_right x (-1))) (by norm_num)
  · exact min_le_right _ _

theorem roundQ_mem (n : ℕ) {a b x : ℚ} (ha : roundQ n a = a) (hb : roundQ n b = b)
    (h1 : a ≤ x) (h2 : x ≤ b) : a ≤ roundQ n x ∧ roundQ n x ≤ b :=
  ⟨ha ▸ roundQ_le_roundQ n h1, hb ▸ roundQ_le_roundQ n h2⟩

theorem roundQ3_clip (x : ℚ) : -1 ≤ roundQ 3 (clip1 x) ∧ roundQ 3 (clip1 x) ≤ 1 :=
  roundQ_mem 3 (roundQ_of_mul_eq_int 3 (-1) (-1000) (by norm_num))
    (roundQ_of_mul_eq_int 3 1 1000 (by norm_num))
    (clip1_bounds x).1 (clip1_bounds x).2

theorem roundQ2_unit {c : ℚ} (h0 : 0 ≤ c) (h1 : c ≤ 1) :
    0 ≤ roundQ 2 c ∧ roundQ 2 c ≤ 1 :=
  roundQ_mem 2 (roundQ_of_mul_eq_int 2 0 0 (by norm_num))
    (roundQ_of_mul_eq_int 2 1 100 (by norm_num)) h0 h1

theorem conf_lin_unit (stdv : ℚ) :
    0 ≤ roundQ 2 (max (3/10) (min (95/100) (1 - stdv)))
      ∧ roundQ 2 (max (3/10) (min (95/100) (1 - stdv))) ≤ 1 := by
  apply roundQ2_unit
  · exact le_trans (by norm_num) (le_max_left _ _)
  · exact max_le (by norm_num) (le_trans (min_le_left _ _) (by norm_num))

theorem conf_ma_unit (i : ℕ) :
    0 ≤ roundQ 2 ((85/100) * (85/100 : ℚ) ^ (i + 1))
      ∧ roundQ 2 ((85/100) * (85/100 : ℚ) ^ (i + 1)) ≤ 1 := by
  apply roundQ2_unit
  · positivity
  · have hp : (85/100 : ℚ) ^ (i + 1) ≤ 1 :=
      pow_le_one (by norm_num) (by norm_num)
    nlinarith [pow_nonneg (by norm_num : (0:ℚ) ≤ 85/100) (i + 1)]

theorem linear_bounds (trend : List TrendPoint) (ha iv : ℕ) (stdv : ℚ) :
    ∀ p ∈ predict_sentiment_linear trend ha iv stdv,
      -1 ≤ p.predicted_sentiment_score ∧ p.predicted_sentiment_score ≤ 1 ∧
      -1 ≤ p.predicted_sentiment_ratio ∧ p.predicted_sentiment_ratio ≤ 1 ∧
      0 ≤ p.confidence ∧ p.confidence ≤ 1 := by
  intro p hp
  unfold predict_sentiment_linear at hp
  dsimp only at hp
  split at hp
  · exact absurd hp (List.not_mem_nil p)
  · split at hp
    · exact absurd hp (List.not_mem_nil p)
    · obtain ⟨i, _, rfl⟩ := List.mem_map.mp hp
      exact ⟨(roundQ3_clip _).1, (roundQ3_clip _).2, (roundQ3_clip _).1, (roundQ3_clip _).2,
        (conf_lin_unit stdv).1, (conf_lin_unit stdv).2⟩

theorem ma_bounds (trend : List TrendPoint) (ha iv w : ℕ) :
    ∀ p ∈ predict_sentiment_moving_average trend ha iv w,
      -1 ≤ p.predicted_sentiment_score ∧ p.predicted_sentiment_score ≤ 1 ∧
      -1 ≤ p.predicted_sentiment_ratio ∧ p.predicted_sentiment_ratio ≤ 1 ∧
      0 ≤ p.confidence ∧ p.confidence ≤ 1 := by
  intro p hp
  unfold predict_sentiment_moving_average at hp
  dsimp only at hp
  split at hp
  · exact absurd hp (List.not_mem_nil p)
  · split at hp
    · exact absurd hp (List.not_mem_nil p)
    · obtain ⟨i, _, rfl⟩ := List.mem_map.mp hp
      exact ⟨(roundQ3_clip _).1, (roundQ3_clip _).2, (roundQ3_clip _).1, (roundQ3_clip _).2,
        (conf_ma_unit i).1, (conf_ma_unit i).2⟩

/-- Claim C9 (confirmed): every PredictionPoint produced by any method of
the forecaster (linear, moving-average, hybrid, or any other method string,
which falls into the hybrid branch) has `predicted_sentiment_score` and
`predicted_sentiment_ratio` clamped to `[-1, 1]` and `confidence` in
`[0, 1]`; this holds for every value of the std parameter. -/
theorem predict_sentiment_clamp (items : List Item) (ha iv : ℕ) (method : String)
    (stdv : ℚ) :
    ∀ p ∈ (predict_sentiment items ha iv method stdv).predictions,
      -1 ≤ p.predicted_sentiment_score ∧ p.predicted_sentiment_score ≤ 1 ∧
      -1 ≤ p.predicted_sentiment_ratio ∧ p.predicted_sentiment_ratio ≤ 1 ∧
      0 ≤ p.confidence ∧ p.confidence ≤ 1 := by
  intro p hp
  unfold predict_sentiment at hp
  dsimp only at hp
  split at hp
  · exact absurd hp (List.not_mem_nil p)
  · split at hp
    · exact absurd hp (List.not_mem_nil p)
    · split at hp
      · exact linear_bounds _ ha iv stdv p hp
      · split at hp
        · exact ma_bounds _ ha iv 5 p hp
        set trend := calculate_sentiment_trends items iv with htr
        set lp := predict_sentiment_linear trend ha iv stdv with hlp
        set mp := predict_sentiment_moving_average trend ha iv 5 with hmp
        by_cases hb : (!lp.isEmpty && !mp.isEmpty) = true
        · rw [if_pos hb] at hp
          unfold hybridCombine at hp
          obtain ⟨q, hq, rfl⟩ := List.mem_map.mp hp
          obtain ⟨hq1, hq2⟩ := List.of_mem_zip hq
          have b1 := linear_bounds trend ha iv stdv q.1 hq1
          have b2 := ma_bounds trend ha iv 5 q.2 hq2
          refine ⟨?_, ?_, ?_, ?_, ?_, ?_⟩
          · exact (roundQ_mem 3 (roundQ_of_mul_eq_int 3 (-1) (-1000) (by norm_num))
              (roundQ_of_mul_eq_int 3 1 1000 (by norm_num))
              (by linarith [b1.1, b2.1]) (by linarith [b1.2.1, b2.2.1])).1
          · exact (roundQ_mem 3 (roundQ_of_mul_eq_int 3 (-1) (-1000) (by norm_num))
              (roundQ_of_mul_eq_int 3 1 1000 (by norm_num))
              (by linarith [b1.1, b2.1]) (by linarith [b1.2.1, b2.2.1])).2
          · exact (roundQ_mem 3 (roundQ_of_mul_eq_int 3 (-1) (-1000) (by norm_num))
              (roundQ_of_mul_eq_int 3 1 1000 (by norm_num))
              (by linarith [b1.2.2.1, b2.2.2.1]) (by linarith [b1.2.2.2.1, b2.2.2.2.1])).1
          · exact (roundQ_mem 3 (roundQ_of_mul_eq_int 3 (-1) (-1000) (by norm_num))
              (roundQ_of_mul_eq_int 3 1 1000 (by norm_num))
              (by linarith [b1.2.2.1, b2.2.2.1]) (by linarith [b1.2.2.2.1, b2.2.2.2.1])).2
          · exact (roundQ2_unit (by linarith [b1.2.2.2.2.1, b2.2.2.2.2.1])
              (by linarith [b1.2.2.2.2.2, b2.2.2.2.2.2])).1
          · exact (roundQ2_unit (by linarith [b1.2.2.2.2.1, b2.2.2.2.2.1])
              (by linarith [b1.2.2.2.2.2, b2.2.2.2.2.2])).2
        · rw [if_neg hb] at hp
          by_cases he : lp.isEmpty = true
          · rw [if_pos he] at hp
            exact ma_bounds trend ha iv 5 p hp
          · rw [if_neg he] at hp
            exact linear_bounds trend ha iv stdv p hp

/-! ### Predicted label vs stored score (claim C10) -/

theorem labelOf_roundQ3 (pa : ℚ) :
    (1/10 < roundQ 3 pa → labelOf pa = SLabel.positive) ∧
    (labelOf pa = SLabel.positive → 1/10 ≤ roundQ 3 pa) ∧
    (roundQ 3 pa < -(1/10) → labelOf pa = SLabel.negative) ∧
    (labelOf pa = SLabel.negative → roundQ 3 pa ≤ -(1/10)) ∧
    (labelOf pa = SLabel.neutral → -(1/10) ≤ roundQ 3 pa ∧ roundQ 3 pa ≤ 1/10) := by
  have h01 : roundQ 3 (1/10 : ℚ) = 1/10 := roundQ_of_mul_eq_int 3 (1/10) 100 (by norm_num)
  have hm01 : roundQ 3 (-(1/10) : ℚ) = -(1/10) :=
    roundQ_of_mul_eq_int 3 (-(1/10)) (-100) (by norm_num)
  unfold labelOf
  by_cases hpos : pa > 1/10
  · rw [if_pos hpos]
    have hge : (1/10 : ℚ) ≤ roundQ 3 pa := h01 ▸ roundQ_le_roundQ 3 (le_of_lt hpos)
    refine ⟨fun _ => rfl, fun _ => hge, fun hlt => absurd hlt (by linarith), ?_, ?_⟩
    · intro he; cases he
    · intro he; cases he
  · rw [if_neg hpos]
    have hle : roundQ 3 pa ≤ 1/10 := h01 ▸ roundQ_le_roundQ 3 (le_of_not_lt hpos)
    by_cases hneg : pa < -(1/10)
    · rw [if_pos hneg]
      have hle' : roundQ 3 pa ≤ -(1/10) := hm01 ▸ roundQ_le_roundQ 3 (le_of_lt hneg)
      refine ⟨fun hlt => absurd hlt (by linarith), ?_, fun _ => rfl, fun _ => hle', ?_⟩
      · intro he; cases he
      · intro he; cases he
    · rw [if_neg hneg]
      have hge' : -(1/10 : ℚ) ≤ roundQ 3 pa := hm01 ▸ roundQ_le_roundQ 3 (le_of_not_lt hneg)
      refine ⟨fun hlt => absurd hlt (by linarith), ?_, fun hlt => absurd hlt (by linarith),
        ?_, fun _ => ⟨hge', hle⟩⟩
      · intro he; cases he
      · intro he; cases he

/-- Claim C10 (corrected): for the linear and moving-average methods the
label is computed from the (clipped, unrounded) prediction by the
thresholds `> 0.1` / `< -0.1`, which relates to the STORED 3-decimal score
by one-sided inequalities (a rounded score of exactly 0.1 can carry either
a positive or a neutral label); and a hybrid point's label is copied from
the corresponding linear point while its score is the rounded average of
the two methods' scores, so the hybrid label is not determined by the
hybrid point's own score. -/
theorem predicted_label_thresholds (trend : List TrendPoint) (ha iv w : ℕ) (stdv : ℚ) :
    (∀ p ∈ predict_sentiment_linear trend ha iv stdv,
      (1/10 < p.predicted_sentiment_score → p.predicted_sentiment = SLabel.positive) ∧
      (p.predicted_sentiment = SLabel.positive → 1/10 ≤ p.predicted_sentiment_score) ∧
      (p.predicted_sentiment_score < -(1/10) → p.predicted_sentiment = SLabel.negative) ∧
      (p.predicted_sentiment = SLabel.negative → p.predicted_sentiment_score ≤ -(1/10)) ∧
      (p.predicted_sentiment = SLabel.neutral →
        -(1/10) ≤ p.predicted_sentiment_score ∧ p.predicted_sentiment_score ≤ 1/10)) ∧
    (∀ p ∈ predict_sentiment_moving_average trend ha iv w,
      (1/10 < p.predicted_sentiment_score → p.predicted_sentiment = SLabel.positive) ∧
      (p.predicted_sentiment = SLabel.positive → 1/10 ≤ p.predicted_sentiment_score) ∧
      (p.predicted_sentiment_score < -(1/10) → p.predicted_sentiment = SLabel.negative) ∧
      (p.predicted_sentiment = SLabel.negative → p.predicted_sentiment_score ≤ -(1/10)) ∧
      (p.predicted_sentiment = SLabel.neutral →
        -(1/10) ≤ p.predicted_sentiment_score ∧ p.predicted_sentiment_score ≤ 1/10)) ∧
    (∀ lp mp : List PredictionPoint, ∀ i : ℕ, ∀ p q : PredictionPoint,
      (hybridCombine lp mp)[i]? = some p → lp[i]? = some q →
      p.predicted_sentiment = q.predicted_sentiment ∧
      ∀ r : PredictionPoint, mp[i]? = some r →
        p.predicted_sentiment_score
          = roundQ 3 ((q.predicted_sentiment_score + r.predicted_sentiment_score) / 2)) := by
  refine ⟨?_, ?_, ?_⟩
  · intro p hp
    unfold predict_sentiment_linear at hp
    dsimp only at hp
    split at hp
    · exact absurd hp (List.not_mem_nil p)
    · split at hp
      · exact absurd hp (List.not_mem_nil p)
      · obtain ⟨i, _, rfl⟩ := List.mem_map.mp hp
        exact labelOf_roundQ3 _
  · intro p hp
    unfold predict_sentiment_moving_average at hp
    dsimp only at hp
    split at hp
    · exact absurd hp (List.not_mem_nil p)
    · split at hp
      · exact absurd hp (List.not_mem_nil p)
      · obtain ⟨i, _, rfl⟩ := List.mem_map.mp hp
        exact labelOf_roundQ3 _
  · intro lp mp i p q hp hq
    unfold hybridCombine at hp
    rw [List.getElem?_map] at hp
    cases hz : (lp.zip mp)[i]? with
    | none =>
      rw [hz] at hp
      cases hp
    | some pair =>
      rw [hz] at hp
      obtain ⟨hz1, hz2⟩ := List.getElem?_zip_eq_some.mp hz
      have hq1 : pair.1 = q := by
        rw [hq] at hz1
        exact (Option.some.inj hz1).symm
      have hpeq : p = { timestamp := pair.1.timestamp
                        hours_ahead := pair.1.hours_ahead
                        predicted_sentiment_score :=
                          roundQ 3 ((pair.1.predicted_sentiment_score
                            + pair.2.predicted_sentiment_score) / 2)
                        predicted_sentiment_ratio :=
                          roundQ 3 ((pair.1.predicted_sentiment_ratio
                            + pair.2.predicted_sentiment_ratio) / 2)
                        predicted_sentiment := pair.1.predicted_sentiment
                        confidence := roundQ 2 ((pair.1.confidence + pair.2.confidence) / 2) } :=
        (Option.some.inj hp).symm
      constructor
      · rw [hpeq, ← hq1]
      · intro r hr
        have hr1 : pair.2 = r := by
          rw [hr] at hz2
          exact (Option.some.inj hz2).symm
        rw [hpeq, ← hq1, ← hr1]

/-- Claim C10 counterexample: on a concrete five-item history the hybrid
branch's first prediction carries the label positive while its stored
3-decimal score 89/1000 does not exceed the 1/10 threshold; the std
parameter 1/4 passed to the forecaster equals the code's own tail-5 sample
deviation of the training averages (its square is the sample variance). -/
theorem hybrid_label_threshold_mismatch :
    ((predict_sentiment
        [⟨1/2, Lab.neg⟩, ⟨1, Lab.neu⟩, ⟨7/2, Lab.neu⟩, ⟨13/2, Lab.neu⟩, ⟨19/2, Lab.neu⟩]
        12 3 "hybrid" (1/4)).predictions.head?).map
        (fun p => (p.predicted_sentiment, p.predicted_sentiment_score))
      = some (SLabel.positive, 89/1000)
    ∧ ¬ ((89/1000 : ℚ) > 1/10)
    ∧ sampleVar (tail5
        (((calculate_sentiment_trends
            [⟨1/2, Lab.neg⟩, ⟨1, Lab.neu⟩, ⟨7/2, Lab.neu⟩, ⟨13/2, Lab.neu⟩, ⟨19/2, Lab.neu⟩]
            3).filter (fun p => decide (0 < p.total_posts))).map
          (fun p => p.avg_sentiment))) = (1/4) ^ 2 := by
  have htrend : calculate_sentiment_trends
      [⟨1/2, Lab.neg⟩, ⟨1, Lab.neu⟩, ⟨7/2, Lab.neu⟩, ⟨13/2, Lab.neu⟩, ⟨19/2, Lab.neu⟩] 3
      = [⟨0, -1/2, -1/2, 0, 1, 1, 2⟩, ⟨3, 0, 0, 0, 0, 1, 1⟩,
         ⟨6, 0, 0, 0, 0, 1, 1⟩, ⟨9, 0, 0, 0, 0, 1, 1⟩] := by
    rw [calculate_sentiment_trends]
    rw [if_neg (by decide)]
    have hmin : listMinD (([⟨1/2, Lab.neg⟩, ⟨1, Lab.neu⟩, ⟨7/2, Lab.neu⟩, ⟨13/2, Lab.neu⟩,
        ⟨19/2, Lab.neu⟩] : List Item).map (fun it => it.time)) = 1/2 := by
      norm_num [listMinD, List.foldl, min_def]
    have hmax : listMaxD (([⟨1/2, Lab.neg⟩, ⟨1, Lab.neu⟩, ⟨7/2, Lab.neu⟩, ⟨13/2, Lab.neu⟩,
        ⟨19/2, Lab.neu⟩] : List Item).map (fun it => it.time)) = 19/2 := by
      norm_num [listMaxD, List.foldl, max_def]
    dsimp only
    rw [hmin, hmax]
    have hlo : ((3 : ℕ) : ℚ) * ⌊(1/2 : ℚ) / ((3 : ℕ) : ℚ)⌋ = 0 := by norm_num
    have hhi : ((3 : ℕ) : ℚ) * ⌈(19/2 : ℚ) / ((3 : ℕ) : ℚ)⌉ = 12 := by
      have : ⌈(19/2 : ℚ) / ((3 : ℕ) : ℚ)⌉ = 4 := by
        rw [Int.ceil_eq_iff] <;> norm_num
      rw [this]
      norm_num
    rw [hlo, hhi]
    have hbk : bucketsOf 0 12 ((3 : ℕ) : ℚ) = [(0, 3), (3, 6), (6, 9), (9, 12)] := by
      have hf : ⌊((12 : ℚ) - 0) / ((3 : ℕ) : ℚ)⌋ = 4 := by norm_num
      rw [bucketsOf_eq 0 12 _ (by norm_num), hf]
      simp [List.range_succ]
      norm_num
    rw [hbk]
    simp only [List.map_cons, List.map_nil]
    norm_num [mkTrendPoint, List.filter_cons, List.filter_nil, sentVal]
    simp +decide
    norm_num
  have hfil : (([⟨0, -1/2, -1/2, 0, 1, 1, 2⟩, ⟨3, 0, 0, 0, 0, 1, 1⟩,
      ⟨6, 0, 0, 0, 0, 1, 1⟩, ⟨9, 0, 0, 0, 0, 1, 1⟩] : List TrendPoint).filter
      (fun p => decide (0 < p.total_posts)))
      = [⟨0, -1/2, -1/2, 0, 1, 1, 2⟩, ⟨3, 0, 0, 0, 0, 1, 1⟩,
         ⟨6, 0, 0, 0, 0, 1, 1⟩, ⟨9, 0, 0, 0, 0, 1, 1⟩] := by
    simp [List.filter_cons]
  have hlp0 : (predict_sentiment_linear
      [⟨0, -1/2, -1/2, 0, 1, 1, 2⟩, ⟨3, 0, 0, 0, 0, 1, 1⟩,
       ⟨6, 0, 0, 0, 0, 1, 1⟩, ⟨9, 0, 0, 0, 0, 1, 1⟩] 12 3 (1/4)).head?
      = some ⟨12, 3, 1/4, 1/4, SLabel.positive, 3/4⟩ := by
    rw [predict_sentiment_linear]
    rw [if_neg (by decide)]
    dsimp only
    rw [if_neg (by decide)]
    rw [hfil]
    have hrg : List.range (12 / 3) = [0, 1, 2, 3] := rfl
    rw [hrg]
    rw [List.map_cons, List.head?_cons]
    have ht0 : listMinD (([⟨0, -1/2, -1/2, 0, 1, 1, 2⟩, ⟨3, 0, 0, 0, 0, 1, 1⟩,
        ⟨6, 0, 0, 0, 0, 1, 1⟩, ⟨9, 0, 0, 0, 0, 1, 1⟩] : List TrendPoint).map
        (fun p => p.timestamp)) = 0 := by
      norm_num [listMinD, List.foldl, min_def]
    have hlast : listMaxD (([⟨0, -1/2, -1/2, 0, 1, 1, 2⟩, ⟨3, 0, 0, 0, 0, 1, 1⟩,
        ⟨6, 0, 0, 0, 0, 1, 1⟩, ⟨9, 0, 0, 0, 0, 1, 1⟩] : List TrendPoint).map
        (fun p => p.timestamp)) = 9 := by
      norm_num [listMaxD, List.foldl, max_def]
    rw [ht0, hlast]
    have hols : olsFit
        (([⟨0, -1/2, -1/2, 0, 1, 1, 2⟩, ⟨3, 0, 0, 0, 0, 1, 1⟩,
            ⟨6, 0, 0, 0, 0, 1, 1⟩, ⟨9, 0, 0, 0, 0, 1, 1⟩] : List TrendPoint).map
          (fun p => p.timestamp - 0))
        (([⟨0, -1/2, -1/2, 0, 1, 1, 2⟩, ⟨3, 0, 0, 0, 0, 1, 1⟩,
           ⟨6, 0, 0, 0, 0, 1, 1⟩, ⟨9, 0, 0, 0, 0, 1, 1⟩] : List TrendPoint).map
          (fun p => p.avg_sentiment)) = (1/20, -7/20) := by
      norm_num [olsFit, List.zip, List.zipWith]
    have holsR : olsFit
        (([⟨0, -1/2, -1/2, 0, 1, 1, 2⟩, ⟨3, 0, 0, 0, 0, 1, 1⟩,
            ⟨6, 0, 0, 0, 0, 1, 1⟩, ⟨9, 0, 0, 0, 0, 1, 1⟩] : List TrendPoint).map
          (fun p => p.timestamp - 0))
        (([⟨0, -1/2, -1/2, 0, 1, 1, 2⟩, ⟨3, 0, 0, 0, 0, 1, 1⟩,
           ⟨6, 0, 0, 0, 0, 1, 1⟩, ⟨9, 0, 0, 0, 0, 1, 1⟩] : List TrendPoint).map
          (fun p => p.sentiment_ratio)) = (1/20, -7/20) := by
      norm_num [olsFit, List.zip, List.zipWith]
    rw [hols, holsR]
    congr 1
    norm_num [clip1, max_def, min_def, labelOf, roundQ, round_eq]
  have hmp0 : (predict_sentiment_moving_average
      [⟨0, -1/2, -1/2, 0, 1, 1, 2⟩, ⟨3, 0, 0, 0, 0, 1, 1⟩,
       ⟨6, 0, 0, 0, 0, 1, 1⟩, ⟨9, 0, 0, 0, 0, 1, 1⟩] 12 3 5).head?
      = some ⟨12, 3, -9/125, -49/500, SLabel.neutral, 18/25⟩ := by
    rw [predict_sentiment_moving_average]
    rw [if_neg (by decide)]
    dsimp only
    rw [if_neg (by decide)]
    rw [hfil]
    have hlast : listMaxD (([⟨0, -1/2, -1/2, 0, 1, 1, 2⟩, ⟨3, 0, 0, 0, 0, 1, 1⟩,
        ⟨6, 0, 0, 0, 0, 1, 1⟩, ⟨9, 0, 0, 0, 0, 1, 1⟩] : List TrendPoint).map
        (fun p => p.timestamp)) = 9 := by
      norm_num [listMaxD, List.foldl, max_def]
    rw [hlast]
    have hrg : List.range (12 / 3) = [0, 1, 2, 3] := rfl
    rw [hrg]
    rw [List.map_cons, List.head?_cons]
    congr 1
    have hdrop : (([⟨0, -1/2, -1/2, 0, 1, 1, 2⟩, ⟨3, 0, 0, 0, 0, 1, 1⟩,
        ⟨6, 0, 0, 0, 0, 1, 1⟩, ⟨9, 0, 0, 0, 0, 1, 1⟩] : List TrendPoint).drop
        ((4 : ℕ) - 5)) = [⟨0, -1/2, -1/2, 0, 1, 1, 2⟩, ⟨3, 0, 0, 0, 0, 1, 1⟩,
           ⟨6, 0, 0, 0, 0, 1, 1⟩, ⟨9, 0, 0, 0, 0, 1, 1⟩] := rfl
    simp only [List.length_cons, List.length_nil, hdrop]
    rw [if_pos (by norm_num)]
    norm_num [List.take, List.drop, min_def, max_def, clip1, labelOf, roundQ, round_eq]
  have hlpe : (predict_sentiment_linear
      [⟨0, -1/2, -1/2, 0, 1, 1, 2⟩, ⟨3, 0, 0, 0, 0, 1, 1⟩,
       ⟨6, 0, 0, 0, 0, 1, 1⟩, ⟨9, 0, 0, 0, 0, 1, 1⟩] 12 3 (1/4)).isEmpty = false := by
    cases hcase : predict_sentiment_linear
        [⟨0, -1/2, -1/2, 0, 1, 1, 2⟩, ⟨3, 0, 0, 0, 0, 1, 1⟩,
         ⟨6, 0, 0, 0, 0, 1, 1⟩, ⟨9, 0, 0, 0, 0, 1, 1⟩] 12 3 (1/4) with
    | nil => rw [hcase] at hlp0; exact absurd hlp0 (by simp)
    | cons a t => rfl
  have hmpe : (predict_sentiment_moving_average
      [⟨0, -1/2, -1/2, 0, 1, 1, 2⟩, ⟨3, 0, 0, 0, 0, 1, 1⟩,
       ⟨6, 0, 0, 0, 0, 1, 1⟩, ⟨9, 0, 0, 0, 0, 1, 1⟩] 12 3 5).isEmpty = false := by
    cases hcase : predict_sentiment_moving_average
        [⟨0, -1/2, -1/2, 0, 1, 1, 2⟩, ⟨3, 0, 0, 0, 0, 1, 1⟩,
         ⟨6, 0, 0, 0, 0, 1, 1⟩, ⟨9, 0, 0, 0, 0, 1, 1⟩] 12 3 5 with
    | nil => rw [hcase] at hmp0; exact absurd hmp0 (by simp)
    | cons a t => rfl
  refine ⟨?_, by norm_num, ?_⟩
  · rw [predict_sentiment]
    rw [if_neg (by decide)]
    dsimp only
    rw [htrend]
    rw [if_neg (by decide)]
    rw [if_neg (by decide), if_neg (by decide)]
    dsimp only
    rw [if_pos (by rw [hlpe, hmpe]; rfl)]
    rw [hybridCombine]
    rw [List.head?_map]
    have hz : ((predict_sentiment_linear
        [⟨0, -1/2, -1/2, 0, 1, 1, 2⟩, ⟨3, 0, 0, 0, 0, 1, 1⟩,
         ⟨6, 0, 0, 0, 0, 1, 1⟩, ⟨9, 0, 0, 0, 0, 1, 1⟩] 12 3 (1/4)).zip
        (predict_sentiment_moving_average
        [⟨0, -1/2, -1/2, 0, 1, 1, 2⟩, ⟨3, 0, 0, 0, 0, 1, 1⟩,
         ⟨6, 0, 0, 0, 0, 1, 1⟩, ⟨9, 0, 0, 0, 0, 1, 1⟩] 12 3 5)).head?
        = some (⟨12, 3, 1/4, 1/4, SLabel.positive, 3/4⟩,
                ⟨12, 3, -9/125, -49/500, SLabel.neutral, 18/25⟩) := by
      rw [List.head?_eq_getElem?]
      rw [List.getElem?_zip_eq_some]
      constructor
      · rw [← List.head?_eq_getElem?]; exact hlp0
      · rw [← List.head?_eq_getElem?]; exact hmp0
    rw [hz]
    simp only [Option.map_some']
    norm_num [roundQ, round_eq]
  · rw [htrend, hfil]
    norm_num [tail5, sampleVar, List.drop]

/-- Claim C6 (corrected): an empty item series yields the structured
no-data result and fewer than 2 trend buckets the structured
insufficient-data result, both with empty prediction lists; the linear
method returns an empty list whenever fewer than 2 non-empty buckets exist
AND ALSO whenever the trend has fewer than 3 buckets in total, so 2
non-empty buckets do not suffice; with at least 3 buckets of which at
least 2 are non-empty it produces hours_ahead div interval_hours
predictions. -/
theorem forecaster_insufficient_data_guards (items : List Item) (ha iv : ℕ)
    (method : String) (stdv : ℚ) :
    (items = [] → predict_sentiment items ha iv method stdv
        = ⟨[], some "No data available for prediction"⟩)
    ∧ (items ≠ [] → (calculate_sentiment_trends items iv).length < 2 →
        predict_sentiment items ha iv method stdv
          = ⟨[], some "Insufficient data for prediction"⟩)
    ∧ (∀ trend : List TrendPoint, trend.length < 3 →
        predict_sentiment_linear trend ha iv stdv = [])
    ∧ (∀ trend : List TrendPoint,
        (trend.filter (fun p => decide (0 < p.total_posts))).length < 2 →
        predict_sentiment_linear trend ha iv stdv = [])
    ∧ (∀ trend : List TrendPoint, 3 ≤ trend.length →
        2 ≤ (trend.filter (fun p => decide (0 < p.total_posts))).length →
        (predict_sentiment_linear trend ha iv stdv).length = ha / iv) := by
  refine ⟨?_, ?_, ?_, ?_, ?_⟩
  · intro h
    subst h
    rfl
  · intro hne hlen
    rw [predict_sentiment]
    rw [if_neg (by simpa [List.isEmpty_iff] using hne)]
    dsimp only
    rw [if_pos (by simp [hlen])]
  · intro trend h3
    rw [predict_sentiment_linear]
    rw [if_pos (by simp [decide_eq_true_eq]; omega)]
  · intro trend h2
    by_cases hg : (trend.isEmpty || decide (trend.length < 3)) = true
    · rw [predict_sentiment_linear, if_pos hg]
    · rw [predict_sentiment_linear, if_neg hg]
      dsimp only
      rw [if_pos h2]
  · intro trend h3 h2
    rw [predict_sentiment_linear]
    rw [if_neg (by
      simp only [Bool.or_eq_true, List.isEmpty_iff, decide_eq_true_eq]
      rintro (rfl | hlt)
      · simp at h3
      · omega)]
    dsimp only
    rw [if_neg (by omega)]
    simp only [List.length_map, List.length_range]

/-- Claim C6 counterexample: a trend of exactly 2 buckets, both
non-empty, still yields an empty linear prediction list because of the
len(trend_df) < 3 guard, refuting "produces predictions whenever at least
2 non-empty buckets exist". -/
theorem predict_sentiment_linear_two_nonempty_buckets_empty :
    predict_sentiment_linear
        [⟨0, 1, 1, 1, 0, 0, 1⟩, ⟨3, 1, 1, 1, 0, 0, 1⟩] 12 3 0 = []
    ∧ (([⟨0, 1, 1, 1, 0, 0, 1⟩, ⟨3, 1, 1, 1, 0, 0, 1⟩] : List TrendPoint).filter
        (fun p => decide (0 < p.total_posts))).length = 2 := by
  constructor
  · rw [predict_sentiment_linear, if_pos (by decide)]
  · simp [List.filter_cons]

/-- Witness for the C6 guards theorem: a concrete 3-bucket trend with 2
non-empty buckets yields 12 div 3 = 4 linear predictions. -/
theorem forecaster_insufficient_data_guards_witness :
    (predict_sentiment_linear
      [⟨0, 1, 1, 1, 0, 0, 1⟩, ⟨3, 0, 0, 0, 0, 0, 0⟩, ⟨6, -1, -1, 0, 1, 0, 1⟩]
      12 3 0).length = 12 / 3 :=
  (forecaster_insufficient_data_guards [] 12 3 "linear" 0).2.2.2.2
    [⟨0, 1, 1, 1, 0, 0, 1⟩, ⟨3, 0, 0, 0, 0, 0, 0⟩, ⟨6, -1, -1, 0, 1, 0, 1⟩]
    (by simp) (by simp [List.filter_cons])

/-- Witness for the C10 theorem: a concrete hybrid point copies its
label from the linear point and averages the two scores. -/
theorem predicted_label_thresholds_witness :
    (⟨0, 3, 1/8, 0, SLabel.positive, 1/2⟩ : PredictionPoint).predicted_sentiment
        = (⟨0, 3, 1/2, 0, SLabel.positive, 1/2⟩ : PredictionPoint).predicted_sentiment
    ∧ (⟨0, 3, 1/8, 0, SLabel.positive, 1/2⟩ : PredictionPoint).predicted_sentiment_score
        = roundQ 3
            (((⟨0, 3, 1/2, 0, SLabel.positive, 1/2⟩ : PredictionPoint).predicted_sentiment_score
              + (⟨0, 3, -1/4, 0, SLabel.neutral, 1/2⟩
                  : PredictionPoint).predicted_sentiment_score) / 2) := by
  have hp : (hybridCombine [⟨0, 3, 1/2, 0, SLabel.positive, 1/2⟩]
      [⟨0, 3, -1/4, 0, SLabel.neutral, 1/2⟩])[0]?
      = some ⟨0, 3, 1/8, 0, SLabel.positive, 1/2⟩ := by
    simp only [hybridCombine, List.zip, List.zipWith, List.map_cons, List.map_nil,
      List.getElem?_cons_zero, Option.some.injEq]
    norm_num [roundQ, round_eq]
  have h := (predicted_label_thresholds [] 0 0 0 0).2.2
      [⟨0, 3, 1/2, 0, SLabel.positive, 1/2⟩] [⟨0, 3, -1/4, 0, SLabel.neutral, 1/2⟩] 0
      ⟨0, 3, 1/8, 0, SLabel.positive, 1/2⟩ ⟨0, 3, 1/2, 0, SLabel.positive, 1/2⟩
      hp rfl
  exact ⟨h.1, h.2 ⟨0, 3, -1/4, 0, SLabel.neutral, 1/2⟩ rfl⟩

/-- Witness for the C9 clamp theorem: the single prediction produced by
the hybrid method on a concrete two-item history satisfies all six
bounds. -/
theorem predict_sentiment_clamp_witness :
    (-1 ≤ (⟨6, 3, -17/20, -17/40, SLabel.negative, 18/25⟩
        : PredictionPoint).predicted_sentiment_score
      ∧ (⟨6, 3, -17/20, -17/40, SLabel.negative, 18/25⟩
          : PredictionPoint).predicted_sentiment_score ≤ 1
      ∧ -1 ≤ (⟨6, 3, -17/20, -17/40, SLabel.negative, 18/25⟩
          : PredictionPoint).predicted_sentiment_ratio
      ∧ (⟨6, 3, -17/20, -17/40, SLabel.negative, 18/25⟩
          : PredictionPoint).predicted_sentiment_ratio ≤ 1
      ∧ 0 ≤ (⟨6, 3, -17/20, -17/40, SLabel.negative, 18/25⟩
          : PredictionPoint).confidence
      ∧ (⟨6, 3, -17/20, -17/40, SLabel.negative, 18/25⟩
          : PredictionPoint).confidence ≤ 1) := by
  have htrend2 : calculate_sentiment_trends [⟨1/2, Lab.pos⟩, ⟨7/2, Lab.neg⟩] 3
      = [⟨0, 1, 1, 1, 0, 0, 1⟩, ⟨3, -1, -1, 0, 1, 0, 1⟩] := by
    rw [calculate_sentiment_trends]
    rw [if_neg (by decide)]
    have hmin : listMinD (([⟨1/2, Lab.pos⟩, ⟨7/2, Lab.neg⟩] : List Item).map
        (fun it => it.time)) = 1/2 := by
      norm_num [listMinD, List.foldl, min_def]
    have hmax : listMaxD (([⟨1/2, Lab.pos⟩, ⟨7/2, Lab.neg⟩] : List Item).map
        (fun it => it.time)) = 7/2 := by
      norm_num [listMaxD, List.foldl, max_def]
    dsimp only
    rw [hmin, hmax]
    have hlo : ((3 : ℕ) : ℚ) * ⌊(1/2 : ℚ) / ((3 : ℕ) : ℚ)⌋ = 0 := by norm_num
    have hhi : ((3 : ℕ) : ℚ) * ⌈(7/2 : ℚ) / ((3 : ℕ) : ℚ)⌉ = 6 := by
      have : ⌈(7/2 : ℚ) / ((3 : ℕ) : ℚ)⌉ = 2 := by
        rw [Int.ceil_eq_iff] <;> norm_num
      rw [this]
      norm_num
    rw [hlo, hhi]
    have hbk : bucketsOf 0 6 ((3 : ℕ) : ℚ) = [(0, 3), (3, 6)] := by
      have hf : ⌊((6 : ℚ) - 0) / ((3 : ℕ) : ℚ)⌋ = 2 := by norm_num
      rw [bucketsOf_eq 0 6 _ (by norm_num), hf]
      simp [List.range_succ]
      norm_num
    rw [hbk]
    simp only [List.map_cons, List.map_nil]
    norm_num [mkTrendPoint, List.filter_cons, List.filter_nil, sentVal]
    simp +decide
  have hlpe2 : predict_sentiment_linear
      [⟨0, 1, 1, 1, 0, 0, 1⟩, ⟨3, -1, -1, 0, 1, 0, 1⟩] 3 3 0 = [] := by
    rw [predict_sentiment_linear, if_pos (by decide)]
  have hmp2 : predict_sentiment_moving_average
      [⟨0, 1, 1, 1, 0, 0, 1⟩, ⟨3, -1, -1, 0, 1, 0, 1⟩] 3 3 5
      = [⟨6, 3, -17/20, -17/40, SLabel.negative, 18/25⟩] := by
    rw [predict_sentiment_moving_average]
    rw [if_neg (by decide)]
    dsimp only
    rw [if_neg (by decide)]
    have hfil2 : (([⟨0, 1, 1, 1, 0, 0, 1⟩, ⟨3, -1, -1, 0, 1, 0, 1⟩]
        : List TrendPoint).filter (fun p => decide (0 < p.total_posts)))
        = [⟨0, 1, 1, 1, 0, 0, 1⟩, ⟨3, -1, -1, 0, 1, 0, 1⟩] := by
      simp [List.filter_cons]
    rw [hfil2]
    have hlast : listMaxD (([⟨0, 1, 1, 1, 0, 0, 1⟩, ⟨3, -1, -1, 0, 1, 0, 1⟩]
        : List TrendPoint).map (fun p => p.timestamp)) = 3 := by
      norm_num [listMaxD, List.foldl, max_def]
    rw [hlast]
    have hrg : List.range (3 / 3) = [0] := rfl
    rw [hrg]
    rw [List.map_cons, List.map_nil]
    congr 1
    have hdrop : (([⟨0, 1, 1, 1, 0, 0, 1⟩, ⟨3, -1, -1, 0, 1, 0, 1⟩]
        : List TrendPoint).drop ((2 : ℕ) - 5))
        = [⟨0, 1, 1, 1, 0, 0, 1⟩, ⟨3, -1, -1, 0, 1, 0, 1⟩] := rfl
    simp only [List.length_cons, List.length_nil, hdrop]
    rw [if_pos (by norm_num)]
    norm_num [List.take, List.drop, min_def, max_def, clip1, labelOf, roundQ, round_eq]
  have hres : (predict_sentiment [⟨1/2, Lab.pos⟩, ⟨7/2, Lab.neg⟩] 3 3 "hybrid" 0).predictions
      = [⟨6, 3, -17/20, -17/40, SLabel.negative, 18/25⟩] := by
    rw [predict_sentiment]
    rw [if_neg (by decide)]
    dsimp only
    rw [htrend2]
    rw [if_neg (by decide)]
    rw [if_neg (by decide), if_neg (by decide)]
    dsimp only
    rw [hlpe2, hmp2]
    rfl
  exact predict_sentiment_clamp [⟨1/2, Lab.pos⟩, ⟨7/2, Lab.neg⟩] 3 3 "hybrid" 0
    ⟨6, 3, -17/20, -17/40, SLabel.negative, 18/25⟩
    (by rw [hres]; exact List.mem_singleton_self _)

end Mooddit
